import Mathlib

/-
Verification development for the sparse-voxel-octree core of the repository
(src/src/octree.rs).  The Rust code is shallowly embedded: `u32` node entries
become `Nat` with an explicit `% 2 ^ 32` at the one place the source casts a
`usize` to `u32` (`self.nodes.len() as u32` in `subdivide`), fallible code
(Rust panics) becomes `Except`/`Option`, and the `f32` position arithmetic is
embedded as exact dyadic rationals: every float the traversal manipulates is
of the form `num / 2 ^ den` (offsets `±1/2^depth` and their sums), on which
the float operations of the source are exact, so a dyadic pair `(num, den)` is a
faithful model of the float state.  Loops become fuel-indexed recursions;
supplying enough fuel is proved where termination matters.
-/

/-- Source: `pub const VOXEL_OFFSET: u32 = u32::MAX / 2;` (value 2147483647). -/
def VOXEL_OFFSET : Nat := (2 ^ 32 - 1) / 2

/-- The value `u32::MAX` (4294967295), pushed by `add_voxels` for an occupied
octant when `bottom_level` is false (the unresolved-interior placeholder). -/
def U32_MAX : Nat := 2 ^ 32 - 1

/-- Exact dyadic rational `num / 2 ^ den`, the model of the `f32` values that
appear in the octree traversal (all of them are machine-representable dyadics
as long as `den` stays below the mantissa width; the additions,
halvings and comparisons are exact on them). -/
structure Dy where
  num : Int
  den : Nat
deriving DecidableEq, Repr

/-- Dyadic addition: `a/2^m + b/2^n = (a * 2^n + b * 2^m) / 2^(m+n)`. -/
def Dy.add (a b : Dy) : Dy :=
  ⟨a.num * ((2 ^ b.den : Nat) : Int) + b.num * ((2 ^ a.den : Nat) : Int), a.den + b.den⟩

/-- Dyadic comparison `a ≤ b`, by cross-multiplying the power-of-two
denominators (both positive, so the comparison is exact). -/
def Dy.ble (a b : Dy) : Bool :=
  a.num * ((2 ^ b.den : Nat) : Int) ≤ b.num * ((2 ^ a.den : Nat) : Int)

/-- The zero dyadic, model of `0.0f32`. -/
def Dy.zero : Dy := ⟨0, 0⟩

/-- Model of `cgmath::Vector3<f32>` restricted to the dyadic values the octree
code actually computes. -/
structure Vec3 where
  x : Dy
  y : Dy
  z : Dy
deriving DecidableEq, Repr

/-- Model of `Vector3::zero()`. -/
def Vec3.zero : Vec3 := ⟨Dy.zero, Dy.zero, Dy.zero⟩

/-- Componentwise vector addition. -/
def Vec3.add (a b : Vec3) : Vec3 := ⟨a.x.add b.x, a.y.add b.y, a.z.add b.z⟩

/-- Source `Octree::pos_offset(child_index, depth)`:
`(Vector3::new(x, y, z) * 2.0 - Vector3::new(1.0, 1.0, 1.0)) / (1 << depth) as f32`
with `x = (child_index >> 2) & 1`, `y = (child_index >> 1) & 1`,
`z = child_index & 1`.  Each component is `(2*bit - 1) / 2^depth`, an exact
dyadic. -/
def pos_offset (child_index : Nat) (depth : Nat) : Vec3 :=
  ⟨⟨2 * ((child_index >>> 2) &&& 1 : Nat) - 1, depth⟩,
   ⟨2 * ((child_index >>> 1) &&& 1 : Nat) - 1, depth⟩,
   ⟨2 * (child_index &&& 1 : Nat) - 1, depth⟩⟩

/-- The child-octant selection computed at the top of the `get_node` loop:
`p = ((pos.x >= node_pos.x), (pos.y >= node_pos.y), (pos.z >= node_pos.z))`
as 0/1 values, combined as `p.x * 4 + p.y * 2 + p.z`. -/
def octant_index (pos node_pos : Vec3) : Nat :=
  (if node_pos.x.ble pos.x then 1 else 0) * 4 +
  (if node_pos.y.ble pos.y then 1 else 0) * 2 +
  (if node_pos.z.ble pos.z then 1 else 0)

/-- The octree state: `pub struct Octree { pub nodes: Vec<u32>, pub voxel_positions: Vec<Vector3<f32>> }`.
(The constructor`Octree::new` also builds a local `voxels` vector, but it is
dropped without being stored, so it is not part of the state.) -/
structure Octree where
  nodes : List Nat
  voxel_positions : List Vec3
deriving DecidableEq, Repr

/-- The 8 entries pushed by one call of `add_voxels`: for each `i in 0..8`,
if `mask >> i & 1 != 0` then (`VOXEL_OFFSET + 1` when `bottom_level`, else
`u32::MAX`), otherwise `VOXEL_OFFSET`. -/
def new_block (mask : Nat) (bottom_level : Bool) : List Nat :=
  (List.range 8).map (fun i =>
    if Nat.testBit mask i then
      (if bottom_level then VOXEL_OFFSET + 1 else U32_MAX)
    else VOXEL_OFFSET)

/-- Source `Octree::add_voxels(mask, bottom_level, voxel_pos, depth, parent)`:
appends the 8 new entries to `nodes`.  The `voxel_pos`, `depth` and `parent`
parameters are unused by the current code (the `voxel_positions.push` is
commented out in the source); they are kept for signature parity. -/
def add_voxels (o : Octree) (mask : Nat) (bottom_level : Bool)
    (voxel_pos : Vec3) (depth : Nat) (parent : Nat) : Octree :=
  { o with nodes := o.nodes ++ new_block mask bottom_level }

/-- Source `Octree::new(mask)`: starts from an empty node store and one
reserved entry (the zero vector) in `voxel_positions`, then calls
`add_voxels(mask, true, Vector3::zero(), 1, 0)`. -/
def Octree.new (mask : Nat) : Octree :=
  add_voxels { nodes := [], voxel_positions := [Vec3.zero] } mask true Vec3.zero 1 0

/-- The ways `subdivide` can panic in the source: the explicit panic with the
message `Node already subdivided!` when the target entry is an interior pointer, and the implicit index panic
when `node` is out of bounds. -/
inductive OctreeError where
  | alreadySubdivided
  | indexOutOfBounds
deriving DecidableEq, Repr

deriving instance DecidableEq for Except

/-- Helper for the in-place writes `self.nodes[i] = v`. -/
def Octree.setNode (o : Octree) (i v : Nat) : Octree :=
  { o with nodes := o.nodes.set i v }

/-- Source `Octree::subdivide(node, mask, bottom_level, depth)`: panics if
`self.nodes[node] < VOXEL_OFFSET`, otherwise writes
`self.nodes[node] = self.nodes.len() as u32` (hence the `% 2 ^ 32`) and calls
`add_voxels(mask, bottom_level, Vector3::zero(), depth, node)`.  (The source
`let mut voxel_pos = Vector3::zero(); if bottom_level == true { }` block is
dead code and leaves `voxel_pos` at zero.) -/
def subdivide (o : Octree) (node mask : Nat) (bottom_level : Bool) (depth : Nat) :
    Except OctreeError Octree :=
  match o.nodes[node]? with
  | none => .error .indexOutOfBounds
  | some e =>
    if e < VOXEL_OFFSET then .error .alreadySubdivided
    else .ok (add_voxels (o.setNode node (o.nodes.length % 2 ^ 32))
        mask bottom_level Vec3.zero depth node)

/-- Convenience wrapper used to build concrete reachable states: the result of
a `subdivide` call that is known to succeed (and the unchanged tree if it
would panic). -/
def subdivide_or_self (o : Octree) (node mask : Nat) (bottom_level : Bool) (depth : Nat) :
    Octree :=
  match subdivide o node mask bottom_level depth with
  | .ok t => t
  | .error _ => o

/-- Source `Octree::get_node_mask(node)`: builds an 8-bit mask with bit `i`
set when `self.nodes[node + i] != VOXEL_OFFSET`.  The source indexes the
vector directly (panicking out of bounds), modeled by `none`. -/
def get_node_mask (o : Octree) (node : Nat) : Option Nat :=
  if node + 8 ≤ o.nodes.length then
    some ((List.range 8).foldl
      (fun m i => if o.nodes.getD (node + i) 0 ≠ VOXEL_OFFSET then m ||| (1 <<< i) else m) 0)
  else none

/-- The loop body of `Octree::get_node(pos, max_depth)`, with explicit fuel.
State: `node_index`, `node_pos`, `depth`, `parent` exactly as the mutable
locals of the source.  Each iteration increments `depth`, picks the octant from the
sign comparisons, adds `pos_offset(child_index, depth)` to `node_pos`, and
returns `(node_index + child_index, depth, node_pos, parent)` when the entry
is `>= VOXEL_OFFSET` or `depth == max_depth.unwrap_or(u32::MAX)`; otherwise it
descends through the pointer.  Out-of-bounds access (a Rust panic) and fuel
exhaustion (the source looping forever) are both `none`. -/
def get_node_go (o : Octree) (pos : Vec3) (max_depth : Option Nat) :
    Nat → Nat → Vec3 → Nat → Nat → Option (Nat × Nat × Vec3 × Nat)
  | 0, _, _, _, _ => none
  | fuel + 1, node_index, node_pos, depth, parent =>
    match o.nodes[node_index + octant_index pos node_pos]? with
    | none => none
    | some e =>
      if VOXEL_OFFSET ≤ e ∨ depth + 1 = max_depth.getD (2 ^ 32 - 1) then
        some (node_index + octant_index pos node_pos, depth + 1,
              node_pos.add (pos_offset (octant_index pos node_pos) (depth + 1)), parent)
      else
        get_node_go o pos max_depth fuel e
          (node_pos.add (pos_offset (octant_index pos node_pos) (depth + 1)))
          (depth + 1) node_index

/-- Source `Octree::get_node(pos, max_depth)`, returning
`(index, depth, pos, parent_index)`.  Fuel `nodes.length + 1` is enough for
every descent through forward pointers (each step enters a block strictly
further to the right), which covers all states the program constructs. -/
def get_node (o : Octree) (pos : Vec3) (max_depth : Option Nat) :
    Option (Nat × Nat × Vec3 × Nat) :=
  get_node_go o pos max_depth (o.nodes.length + 1) 0 Vec3.zero 0 0

/-- Source `Octree::put_in_voxel(pos, _, depth)`: loops
`let (node, node_depth, _, parent) = self.get_node(pos, None)`; if
`depth == node_depth` writes `self.nodes[node] = VOXEL_OFFSET + 1` and
returns, else calls `self.subdivide(node, 0x00000000, true, node_depth)` and
repeats.  `none` models the source panicking or looping forever. -/
def put_in_voxel (o : Octree) (pos : Vec3) (unused depth : Nat) : Nat → Option Octree
  | 0 => none
  | fuel + 1 =>
    match get_node o pos none with
    | none => none
    | some (node, node_depth, _, _) =>
      if depth = node_depth then some (o.setNode node (VOXEL_OFFSET + 1))
      else
        match subdivide o node 0 true node_depth with
        | .ok o2 => put_in_voxel o2 pos unused depth fuel
        | .error _ => none

/-- The insertion loop as the specification describes it: identical to
`put_in_voxel` except that `locate` is called *with the target depth as
`max_depth`* (the specified `locate(position, depth)`), where the source passes
`None`.  Used to compare the source behaviour against the specified one. -/
def put_in_voxel_spec_locate (o : Octree) (pos : Vec3) (unused depth : Nat) :
    Nat → Option Octree
  | 0 => none
  | fuel + 1 =>
    match get_node o pos (some depth) with
    | none => none
    | some (node, node_depth, _, _) =>
      if depth = node_depth then some (o.setNode node (VOXEL_OFFSET + 1))
      else
        match subdivide o node 0 true node_depth with
        | .ok o2 => put_in_voxel_spec_locate o2 pos unused depth fuel
        | .error _ => none

/-- How `load_octree` can fail in the model: `panic` covers every unchecked
index of the source (`data[..]`, the level-count slice, the `subdivide` panics);
`outOfFuel` is the fuel artifact of the while loop.  The source has no
error-returning path of its own (it only ever returns `Ok`). -/
inductive LoadError where
  | panic
  | outOfFuel
deriving DecidableEq, Repr

/-- The level-count read of `load_octree`:
`u32::from_be_bytes([data[s+3], data[s+2], data[s+1], data[s]])`, i.e. value
`data[s+3]*2^24 + data[s+2]*2^16 + data[s+1]*2^8 + data[s]`.  `none` when any
of the four bytes is past the end of `data` (a Rust index panic). -/
def read_u32 (data : List Nat) (off : Nat) : Option Nat :=
  match data[off + 3]?, data[off + 2]?, data[off + 1]?, data[off]? with
  | some a, some b, some c, some d => some (a * 2 ^ 24 + b * 2 ^ 16 + c * 2 ^ 8 + d)
  | _, _, _, _ => none

/-- The while loop of `load_octree`: scan `node_index` over the node store in
index order; an entry `!= VOXEL_OFFSET` either consumes the mask byte
`data[data_start + data_index]` and is subdivided non-bottom (while
`data_index < node_end`) or is overwritten with `VOXEL_OFFSET + 1`; in both
cases `data_index` is incremented.  `node_index` always advances by one. -/
def load_loop (data : List Nat) (data_start node_end : Nat) :
    Nat → Octree → Nat → Nat → Except LoadError Octree
  | 0, _, _, _ => .error .outOfFuel
  | fuel + 1, o, data_index, node_index =>
    if node_index < o.nodes.length then
      if o.nodes.getD node_index 0 ≠ VOXEL_OFFSET then
        if data_index < node_end then
          match data[data_start + data_index]? with
          | none => .error .panic
          | some child_mask =>
            match subdivide o node_index child_mask false 0 with
            | .ok o2 => load_loop data data_start node_end fuel o2 (data_index + 1) (node_index + 1)
            | .error _ => .error .panic
        else
          load_loop data data_start node_end fuel
            (o.setNode node_index (VOXEL_OFFSET + 1)) (data_index + 1) (node_index + 1)
      else load_loop data data_start node_end fuel o data_index (node_index + 1)
    else .ok o

/-- Source `load_octree(data, octree_depth)`: reads `top_level = data[16]`,
parses `top_level + 1` level counts starting at byte 20, computes
`node_end = node_counts[0..octree_depth].iter().sum::<u32>()` (the slice
panics when `octree_depth > top_level + 1`; the `u32` sum wraps, hence the
`% 2 ^ 32`), builds `Octree::new(data[data_start])` with
`data_start = 20 + 4 * (top_level + 1)`, and runs the scan loop starting at
`data_index = 1`, `node_index = 0`.  Every unchecked byte access models the
Rust index panic as `.error .panic`. -/
def load_octree (data : List Nat) (octree_depth : Nat) (fuel : Nat) :
    Except LoadError Octree :=
  match data[16]? with
  | none => .error .panic
  | some top_level =>
    match (List.range (top_level + 1)).mapM (fun i => read_u32 data (20 + 4 * i)) with
    | none => .error .panic
    | some node_counts =>
      if octree_depth ≤ top_level + 1 then
        match data[20 + 4 * (top_level + 1)]? with
        | none => .error .panic
        | some root_mask =>
          load_loop data (20 + 4 * (top_level + 1))
            (((node_counts.take octree_depth).sum) % 2 ^ 32) fuel
            (Octree.new root_mask) 1 0
      else .error .panic

/-- The error outcomes of `load_vox`: `notCube` is the source error
`Voxel model is not a cube!`, `notPow2` is the source error
`Voxel model size is not a power of 2!`, and `panic` stands for the
insertion loop never terminating (fuel exhaustion). -/
inductive VoxError where
  | notCube
  | notPow2
  | panic
deriving DecidableEq, Repr

/-- The power-of-two test of `load_vox`:
`let depth = (size as f32).log2(); if depth != depth.floor() { error }`.
The float computation is exactly determined at the sizes this development
evaluates it on: for `size = 0`, `log2f(0.0)` is negative infinity, which
equals its own floor, so the test passes; for `size = 2^k` the cast and the
logarithm are exact and the test passes; for any other `size ≤ 2^20` a
faithfully rounded `log2f` lies strictly between a float neighbour of an
integer and the integer itself, so the test fails.  (Above roughly `2^21`
the rounding of `log2f` is close enough to an integer that the outcome is
platform dependent; theorems about this test therefore carry a `≤ 2^20`
bound.) -/
def pow2_check_passes (size : Nat) : Bool :=
  size == 0 || size == 2 ^ Nat.log2 size

/-- The geometry-check prefix of `load_vox`: the exact integer cube test
`size.x != size.y || size.x != size.z || size.y != size.z`, then the
power-of-two test, then the depth `(size as f32).log2() as u32`, which is
`Nat.log2 size` at every size that passes the test (`k` for `2^k`; for size
0 the cast of negative infinity to `u32` saturates to 0, and
`Nat.log2 0 = 0`). -/
def load_vox_checks (sx sy sz : Nat) : Except VoxError Nat :=
  if sx ≠ sy ∨ sx ≠ sz ∨ sy ≠ sz then .error .notCube
  else if pow2_check_passes sx then .ok (Nat.log2 sx) else .error .notPow2

/-- The coordinate remap of `load_vox` for one decoded voxel `(x, y, z)`:
`pos = Vector3::new(size - x - 1, z, y); pos /= size; pos = pos * 2 - 1`.
With `size = 2 ^ depth` (the only sizes that reach this code with a nonempty
voxel list) each component is the exact dyadic `(2 * c - 2^depth) / 2^depth`
where `c` is the integer numerator of the permuted coordinate. -/
def vox_transform (depth size : Nat) (v : Nat × Nat × Nat) : Vec3 :=
  ⟨⟨2 * ((size : Int) - (v.1 : Int) - 1) - ((2 ^ depth : Nat) : Int), depth⟩,
   ⟨2 * (v.2.2 : Int) - ((2 ^ depth : Nat) : Int), depth⟩,
   ⟨2 * (v.2.1 : Int) - ((2 ^ depth : Nat) : Int), depth⟩⟩

/-- The insertion loop of `load_vox`: fold `put_in_voxel` over the decoded
voxels (`octree.put_in_voxel(pos, 1, depth)`), starting from
`Octree::new(0x00000000)`. -/
def load_vox_build (depth size : Nat) (voxels : List (Nat × Nat × Nat)) (fuel : Nat)
    (o : Octree) : Except VoxError Octree :=
  match voxels with
  | [] => .ok o
  | v :: rest =>
    match put_in_voxel o (vox_transform depth size v) 1 depth fuel with
    | some o2 => load_vox_build depth size rest fuel o2
    | none => .error .panic

/-- Source `load_vox`, from the decoded model data (size of `models[0]` and
its voxel list; the external `dot_vox` decoder is the boundary): geometry
checks, then the insertion loop. -/
def load_vox (sx sy sz : Nat) (voxels : List (Nat × Nat × Nat)) (fuel : Nat) :
    Except VoxError Octree :=
  match load_vox_checks sx sy sz with
  | .error e => .error e
  | .ok depth => load_vox_build depth sx voxels fuel (Octree.new 0)

/-- States reachable from a constructor call through the primitive writes the
program performs, indexed by a store-length bound `cap` under which the
subdivisions happen: `Octree::new`, a successful `subdivide` started while
`nodes.len() < cap`, and the in-place write `nodes[i] = VOXEL_OFFSET + 1`
(the final write of `put_in_voxel` and the truncation write of
`load_octree`). -/
inductive Reachable (cap : Nat) : Octree → Prop where
  | new (mask : Nat) : Reachable cap (Octree.new mask)
  | subdiv {o o2 : Octree} (node mask : Nat) (b : Bool) (d : Nat) :
      Reachable cap o → o.nodes.length < cap →
      subdivide o node mask b d = .ok o2 → Reachable cap o2
  | solidify {o : Octree} (node : Nat) :
      Reachable cap o → node < o.nodes.length →
      Reachable cap (o.setNode node (VOXEL_OFFSET + 1))

/-- The block (group of 8 sibling entries) containing entry index `i`. -/
def block_of (i : Nat) : Nat := i - i % 8

/-- Block `b` holds an interior pointer to block `c`: some slot of `b`
contains the value `c` and that value is classified as a pointer
(`< VOXEL_OFFSET`). -/
def parent_block (o : Octree) (b c : Nat) : Prop :=
  ∃ j, j < 8 ∧ o.nodes[b + j]? = some c ∧ c < VOXEL_OFFSET

/-- Block `b` is a (strict) ancestor block of block `c`: a chain of interior
pointers leads from `b` down to `c`. -/
def ancestor_block (o : Octree) : Nat → Nat → Prop :=
  Relation.TransGen (parent_block o)

/-- The Node Store invariant claimed by the specification: the store length
is a multiple of 8, and every entry classified as an interior pointer
(`value < VOXEL_OFFSET`) is a multiple of 8, addresses a block of 8 entries
fully inside the store, and targets neither its own block nor an ancestor
block of it. -/
def node_store_invariant (o : Octree) : Prop :=
  o.nodes.length % 8 = 0 ∧
  ∀ i v, o.nodes[i]? = some v → v < VOXEL_OFFSET →
    v % 8 = 0 ∧ v + 8 ≤ o.nodes.length ∧ v ≠ block_of i ∧
    ¬ ancestor_block o v (block_of i)

/-- Strengthened internal invariant: pointers always point strictly forward
(`i < v`), which is what every append-at-the-end subdivision produces. -/
def fwd_invariant (o : Octree) : Prop :=
  o.nodes.length % 8 = 0 ∧
  ∀ i v, o.nodes[i]? = some v → v < VOXEL_OFFSET →
    v % 8 = 0 ∧ v + 8 ≤ o.nodes.length ∧ i < v

/-- A chain of subdivisions that keeps entry 0 an empty voxel while growing
the store: start from `Octree::new(0)`, subdivide entry 1, then repeatedly
subdivide the head entry of the most recently appended block.  After `k + 1`
subdivisions the store has `8 * (k + 2)` entries. -/
def wrap_chain : Nat → Octree
  | 0 => subdivide_or_self (Octree.new 0) 1 1 true 1
  | k + 1 => subdivide_or_self (wrap_chain k) (8 * (k + 1)) 1 true 1

/-- The state reached by continuing `wrap_chain` until the store holds
exactly `2 ^ 32` entries and then subdividing entry 0: the pointer written
there is `2 ^ 32 % 2 ^ 32 = 0`, i.e. entry 0 points at its own block. -/
def wrap_tree : Octree :=
  subdivide_or_self (wrap_chain (2 ^ 29 - 2)) 0 1 true 1

/-- Concrete tree with a leaf at depth 3 in the all-negative octant:
`Octree::new(1)`, subdivide entry 0, then entry 8 (bottom level each time). -/
def deep_tree : Octree :=
  subdivide_or_self (subdivide_or_self (Octree.new 1) 0 1 true 1) 8 1 true 2

/-- The corner position `(-1, -1, -1)` (all comparisons choose octant 0). -/
def neg_corner : Vec3 := ⟨⟨-1, 0⟩, ⟨-1, 0⟩, ⟨-1, 0⟩⟩

/-
Helper lemmas about the building blocks.
-/

set_option maxRecDepth 8000

lemma new_block_length (mask : Nat) (b : Bool) : (new_block mask b).length = 8 := by
  simp [new_block]

lemma new_block_get (mask : Nat) (b : Bool) (i : Nat) (h : i < 8) :
    (new_block mask b)[i]? =
      some (if Nat.testBit mask i then (if b then VOXEL_OFFSET + 1 else U32_MAX)
            else VOXEL_OFFSET) := by
  simp [new_block, List.getElem?_map, List.getElem?_range, h]

lemma new_block_zero_true : new_block 0 true = List.replicate 8 VOXEL_OFFSET := by
  decide

lemma new_block_mem_ge (mask : Nat) (b : Bool) (v : Nat) (h : v ∈ new_block mask b) :
    VOXEL_OFFSET ≤ v := by
  simp only [new_block, List.mem_map, List.mem_range] at h
  obtain ⟨i, -, rfl⟩ := h
  by_cases hb : Nat.testBit mask i <;> by_cases hbl : b <;>
    simp [hb, hbl, VOXEL_OFFSET, U32_MAX]

lemma new_block_mem_cases (mask : Nat) (b : Bool) (v : Nat) (h : v ∈ new_block mask b) :
    v = VOXEL_OFFSET ∨ v = VOXEL_OFFSET + 1 ∨ v = U32_MAX := by
  simp only [new_block, List.mem_map, List.mem_range] at h
  obtain ⟨i, -, rfl⟩ := h
  by_cases hb : Nat.testBit mask i <;> by_cases hbl : b <;> simp [hb, hbl]

lemma subdivide_eq_of_get (o : Octree) (node mask : Nat) (b : Bool) (d : Nat) (e : Nat)
    (he : o.nodes[node]? = some e) :
    subdivide o node mask b d =
      if e < VOXEL_OFFSET then .error .alreadySubdivided
      else .ok ⟨(o.nodes.set node (o.nodes.length % 2 ^ 32)) ++ new_block mask b,
                o.voxel_positions⟩ := by
  unfold subdivide
  rw [he]
  rfl

lemma subdivide_ok_of (o : Octree) (node mask : Nat) (b : Bool) (d : Nat) (e : Nat)
    (he : o.nodes[node]? = some e) (hge : VOXEL_OFFSET ≤ e) :
    subdivide o node mask b d =
      .ok ⟨(o.nodes.set node (o.nodes.length % 2 ^ 32)) ++ new_block mask b,
           o.voxel_positions⟩ := by
  rw [subdivide_eq_of_get o node mask b d e he, if_neg (by omega)]

lemma subdivide_ok_inv (o o2 : Octree) (node mask : Nat) (b : Bool) (d : Nat)
    (h : subdivide o node mask b d = .ok o2) :
    ∃ e, o.nodes[node]? = some e ∧ VOXEL_OFFSET ≤ e ∧
      o2 = ⟨(o.nodes.set node (o.nodes.length % 2 ^ 32)) ++ new_block mask b,
            o.voxel_positions⟩ := by
  cases he : o.nodes[node]? with
  | none =>
    unfold subdivide at h
    rw [he] at h
    exact absurd h (by simp)
  | some e =>
    rw [subdivide_eq_of_get o node mask b d e he] at h
    by_cases hlt : e < VOXEL_OFFSET
    · rw [if_pos hlt] at h; exact absurd h (by simp)
    · rw [if_neg hlt] at h
      cases h
      exact ⟨e, rfl, by omega, rfl⟩

lemma subdivide_ok_length (o o2 : Octree) (node mask : Nat) (b : Bool) (d : Nat)
    (h : subdivide o node mask b d = .ok o2) :
    o2.nodes.length = o.nodes.length + 8 := by
  obtain ⟨e, -, -, rfl⟩ := subdivide_ok_inv o o2 node mask b d h
  simp [new_block_length]

lemma octant_index_lt (pos np : Vec3) : octant_index pos np < 8 := by
  unfold octant_index
  split <;> split <;> split <;> omega

lemma mask_foldl_recover :
    ∀ m, m < 256 →
      (List.range 8).foldl (fun acc i => if Nat.testBit m i then acc ||| (1 <<< i) else acc) 0
        = m := by
  decide

/-
Claim theorems for the quick claims.
-/

/-- Claim C4: `subdivide` fails with `AlreadySubdivided` exactly when the
target entry is an interior pointer (`value < VOXEL_OFFSET`); on a voxel
entry (empty or solid, `value ≥ VOXEL_OFFSET`) it succeeds. -/
theorem claim_C4_already_subdivided_iff (o : Octree) (node mask : Nat) (b : Bool)
    (d : Nat) (e : Nat) (he : o.nodes[node]? = some e) :
    (subdivide o node mask b d = .error .alreadySubdivided ↔ e < VOXEL_OFFSET) ∧
    (VOXEL_OFFSET ≤ e → ∃ o2, subdivide o node mask b d = .ok o2) := by
  constructor
  · constructor
    · intro h
      by_contra hge
      rw [subdivide_ok_of o node mask b d e he (by omega)] at h
      exact absurd h (by simp)
    · intro hlt
      rw [subdivide_eq_of_get o node mask b d e he, if_pos hlt]
  · intro hge
    exact ⟨_, subdivide_ok_of o node mask b d e he hge⟩

/-- Witness for C4 at a concrete input: the root child 0 of `Octree::new 1`
is a solid voxel, so subdividing it does not raise `AlreadySubdivided`. -/
theorem claim_C4_witness :
    (subdivide (Octree.new 1) 0 3 true 1 = .error .alreadySubdivided ↔
      VOXEL_OFFSET + 1 < VOXEL_OFFSET) ∧
    (VOXEL_OFFSET ≤ VOXEL_OFFSET + 1 →
      ∃ o2, subdivide (Octree.new 1) 0 3 true 1 = .ok o2) :=
  claim_C4_already_subdivided_iff (Octree.new 1) 0 3 true 1 (VOXEL_OFFSET + 1) (by decide)

/-- Claim C2 (evaluation at the failing input): the entry `add_voxels` writes
for an occupied octant with `bottom_level = false` is `u32::MAX`, which lies
*inside* the solid-voxel range (`value > VOXEL_OFFSET`) and decodes to the
bogus attribute index `u32::MAX - VOXEL_OFFSET - 1 = 2147483647`, contrary to
the claim that the unresolved sentinel is outside that range. -/
theorem claim_C2_sentinel_inside_solid_range :
    (add_voxels ⟨[], [Vec3.zero]⟩ 1 false Vec3.zero 1 0).nodes.getD 0 0 = U32_MAX ∧
    VOXEL_OFFSET < U32_MAX ∧
    U32_MAX - VOXEL_OFFSET - 1 = VOXEL_OFFSET := by
  decide

/-- Claim C8 (evaluation at the failing input): `subdivide` has no free list
to draw from — on a fresh tree it grows the store by 8 entries and writes a
pointer to the appended block at the old end of the store, rather than ever
reusing a vacated block (the `Octree` state has no free-list component at
all). -/
theorem claim_C8_subdivide_always_appends :
    (subdivide_or_self (Octree.new 1) 0 0 true 1).nodes.length
        = (Octree.new 1).nodes.length + 8 ∧
    (subdivide_or_self (Octree.new 1) 0 0 true 1).nodes.getD 0 0
        = (Octree.new 1).nodes.length := by
  decide

/-- Claim C10 (counterexample): after `Octree::new(1)` and the single call
`subdivide(0, 0x01, false, 1)` — a reachable state — entry 8 holds
`u32::MAX`, a value classified as a solid voxel (`> VOXEL_OFFSET`) that is
*not* `VOXEL_OFFSET + 1`, refuting the claim that every solid-voxel entry has
that single value. -/
theorem claim_C10_counterexample :
    VOXEL_OFFSET < (subdivide_or_self (Octree.new 1) 0 1 false 1).nodes.getD 8 0 ∧
    (subdivide_or_self (Octree.new 1) 0 1 false 1).nodes.getD 8 0 ≠ VOXEL_OFFSET + 1 ∧
    (subdivide_or_self (Octree.new 1) 0 1 false 1).voxel_positions.length = 1 := by
  decide

/-- Claim C5: after a successful bottom-level `subdivide(n, mask, true, d)`,
reading `get_node_mask` at the start of the newly written child block (the
old store length) recovers exactly `mask`. -/
theorem claim_C5_mask_round_trip (o o2 : Octree) (node mask : Nat) (d : Nat)
    (hm : mask < 256) (h : subdivide o node mask true d = .ok o2) :
    get_node_mask o2 o.nodes.length = some mask := by
  obtain ⟨e, he, hge, rfl⟩ := subdivide_ok_inv o o2 node mask true d h
  have hlen : ((o.nodes.set node (o.nodes.length % 2 ^ 32)) ++ new_block mask true).length
      = o.nodes.length + 8 := by
    simp [new_block_length]
  unfold get_node_mask
  have hcond : o.nodes.length + 8 ≤
      ((o.nodes.set node (o.nodes.length % 2 ^ 32)) ++ new_block mask true).length := by
    rw [hlen]
  rw [if_pos hcond]
  congr 1
  rw [List.foldl_ext _
      (fun acc i => if Nat.testBit mask i then acc ||| (1 <<< i) else acc)]
  · exact mask_foldl_recover mask hm
  · intro acc i hi
    have hi8 : i < 8 := List.mem_range.mp hi
    have hentry :
        ((o.nodes.set node (o.nodes.length % 2 ^ 32)) ++ new_block mask true).getD
            (o.nodes.length + i) 0
          = (if Nat.testBit mask i then VOXEL_OFFSET + 1 else VOXEL_OFFSET) := by
      rw [List.getD_eq_getElem?_getD]
      have hsetlen : (o.nodes.set node (o.nodes.length % 2 ^ 32)).length
          = o.nodes.length := by simp
      rw [List.getElem?_append_right (by omega)]
      rw [hsetlen]
      have : o.nodes.length + i - o.nodes.length = i := by omega
      rw [this, new_block_get mask true i hi8]
      by_cases hb : Nat.testBit mask i <;> simp [hb]
    rw [hentry]
    by_cases hb : Nat.testBit mask i <;> simp [hb, VOXEL_OFFSET]

/-- Witness for C5 at a concrete input: subdividing child 0 of an all-empty
root with mask `0xA5` and reading the mask back at the new block start. -/
theorem claim_C5_witness :
    get_node_mask (subdivide_or_self (Octree.new 0) 0 165 true 1)
        ((Octree.new 0).nodes.length) = some 165 :=
  claim_C5_mask_round_trip (Octree.new 0) (subdivide_or_self (Octree.new 0) 0 165 true 1)
    0 165 1 (by decide) (by rfl)

/-
Step lemmas and invariants for the `get_node` descent.
-/

lemma get_node_go_zero (o : Octree) (pos : Vec3) (md : Option Nat)
    (ni : Nat) (np : Vec3) (dp par : Nat) :
    get_node_go o pos md 0 ni np dp par = none := rfl

lemma get_node_go_step_none (o : Octree) (pos : Vec3) (md : Option Nat)
    (fuel ni : Nat) (np : Vec3) (dp par : Nat)
    (hget : o.nodes[ni + octant_index pos np]? = none) :
    get_node_go o pos md (fuel + 1) ni np dp par = none := by
  conv_lhs => unfold get_node_go
  rw [hget]

lemma get_node_go_step_some (o : Octree) (pos : Vec3) (md : Option Nat)
    (fuel ni : Nat) (np : Vec3) (dp par e : Nat)
    (hget : o.nodes[ni + octant_index pos np]? = some e) :
    get_node_go o pos md (fuel + 1) ni np dp par =
      if VOXEL_OFFSET ≤ e ∨ dp + 1 = md.getD (2 ^ 32 - 1) then
        some (ni + octant_index pos np, dp + 1,
              np.add (pos_offset (octant_index pos np) (dp + 1)), par)
      else
        get_node_go o pos md fuel e
          (np.add (pos_offset (octant_index pos np) (dp + 1))) (dp + 1) ni := by
  conv_lhs => unfold get_node_go
  rw [hget]

lemma get_node_go_mono (o : Octree) (pos : Vec3) (md : Option Nat) :
    ∀ f1 f2 ni (np : Vec3) dp par r, f1 ≤ f2 →
      get_node_go o pos md f1 ni np dp par = some r →
      get_node_go o pos md f2 ni np dp par = some r := by
  intro f1
  induction f1 with
  | zero =>
    intro f2 ni np dp par r hle hr
    rw [get_node_go_zero] at hr
    cases hr
  | succ f ih =>
    intro f2 ni np dp par r hle hr
    obtain ⟨f2p, rfl⟩ : ∃ k, f2 = k + 1 := ⟨f2 - 1, by omega⟩
    cases hget : o.nodes[ni + octant_index pos np]? with
    | none =>
      rw [get_node_go_step_none o pos md f ni np dp par hget] at hr
      cases hr
    | some e =>
      rw [get_node_go_step_some o pos md f ni np dp par e hget] at hr
      rw [get_node_go_step_some o pos md f2p ni np dp par e hget]
      by_cases hc : VOXEL_OFFSET ≤ e ∨ dp + 1 = md.getD (2 ^ 32 - 1)
      · rw [if_pos hc] at hr ⊢
        exact hr
      · rw [if_neg hc] at hr ⊢
        exact ih f2p e _ (dp + 1) ni r (by omega) hr

lemma get_node_go_some_lt (o : Octree) (pos : Vec3) (md : Option Nat) :
    ∀ fuel ni (np : Vec3) dp par i d2 p2 q,
      get_node_go o pos md fuel ni np dp par = some (i, d2, p2, q) →
      i < o.nodes.length := by
  intro fuel
  induction fuel with
  | zero =>
    intro ni np dp par i d2 p2 q hr
    rw [get_node_go_zero] at hr
    cases hr
  | succ f ih =>
    intro ni np dp par i d2 p2 q hr
    cases hget : o.nodes[ni + octant_index pos np]? with
    | none =>
      rw [get_node_go_step_none o pos md f ni np dp par hget] at hr
      cases hr
    | some e =>
      rw [get_node_go_step_some o pos md f ni np dp par e hget] at hr
      by_cases hc : VOXEL_OFFSET ≤ e ∨ dp + 1 = md.getD (2 ^ 32 - 1)
      · rw [if_pos hc] at hr
        simp only [Option.some.injEq, Prod.mk.injEq] at hr
        obtain ⟨rfl, -, -, -⟩ := hr
        exact (List.getElem?_eq_some.mp hget).1
      · rw [if_neg hc] at hr
        exact ih e _ (dp + 1) ni i d2 p2 q hr

lemma get_node_go_some_entry (o : Octree) (pos : Vec3) :
    ∀ fuel ni (np : Vec3) dp par i d2 p2 q,
      get_node_go o pos none fuel ni np dp par = some (i, d2, p2, q) →
      d2 ≠ 2 ^ 32 - 1 →
      ∃ e, o.nodes[i]? = some e ∧ VOXEL_OFFSET ≤ e := by
  intro fuel
  induction fuel with
  | zero =>
    intro ni np dp par i d2 p2 q hr hd2
    rw [get_node_go_zero] at hr
    cases hr
  | succ f ih =>
    intro ni np dp par i d2 p2 q hr hd2
    cases hget : o.nodes[ni + octant_index pos np]? with
    | none =>
      rw [get_node_go_step_none o pos none f ni np dp par hget] at hr
      cases hr
    | some e =>
      rw [get_node_go_step_some o pos none f ni np dp par e hget] at hr
      by_cases hc : VOXEL_OFFSET ≤ e ∨ dp + 1 = (none : Option Nat).getD (2 ^ 32 - 1)
      · rw [if_pos hc] at hr
        simp only [Option.some.injEq, Prod.mk.injEq] at hr
        obtain ⟨rfl, rfl, -, -⟩ := hr
        refine ⟨e, hget, ?_⟩
        rcases hc with hc | hc
        · exact hc
        · simp only [Option.getD_none] at hc
          exact absurd hc hd2
      · rw [if_neg hc] at hr
        exact ih e _ (dp + 1) ni i d2 p2 q hr hd2

lemma get_node_go_follow_subdivide (o : Octree) (pos : Vec3) (i e : Nat)
    (hi : o.nodes[i]? = some e) (he : VOXEL_OFFSET ≤ e)
    (hcap : o.nodes.length < VOXEL_OFFSET) :
    ∀ fuel ni (np : Vec3) dp par d2 p2 q,
      get_node_go o pos none fuel ni np dp par = some (i, d2, p2, q) →
      d2 < 2 ^ 32 - 1 →
      ∃ q2,
        get_node_go
            ⟨(o.nodes.set i (o.nodes.length % 2 ^ 32)) ++ new_block 0 true,
             o.voxel_positions⟩
            pos none (fuel + 1) ni np dp par
          = some (o.nodes.length + octant_index pos p2, d2 + 1,
              p2.add (pos_offset (octant_index pos p2) (d2 + 1)), q2) := by
  have hilen : i < o.nodes.length := (List.getElem?_eq_some.mp hi).1
  have hvo32 : VOXEL_OFFSET < 2 ^ 32 := by decide
  have hmod : o.nodes.length % 2 ^ 32 = o.nodes.length := Nat.mod_eq_of_lt (by omega)
  set O2 : Octree :=
    ⟨(o.nodes.set i (o.nodes.length % 2 ^ 32)) ++ new_block 0 true,
     o.voxel_positions⟩ with hO2def
  have hlen_set : (o.nodes.set i (o.nodes.length % 2 ^ 32)).length = o.nodes.length := by
    simp
  have hO2_lt : ∀ j, j < o.nodes.length → j ≠ i → O2.nodes[j]? = o.nodes[j]? := by
    intro j hj hne
    show ((o.nodes.set i (o.nodes.length % 2 ^ 32)) ++ new_block 0 true)[j]? = _
    rw [List.getElem?_append_left (by rw [hlen_set]; omega)]
    exact List.getElem?_set_ne (by omega)
  have hO2_at_i : O2.nodes[i]? = some o.nodes.length := by
    show ((o.nodes.set i (o.nodes.length % 2 ^ 32)) ++ new_block 0 true)[i]? = _
    rw [List.getElem?_append_left (by rw [hlen_set]; omega)]
    simp only [List.getElem?_set_self, hilen, if_true, hmod]
  have hO2_block : ∀ c, c < 8 → O2.nodes[o.nodes.length + c]? = some VOXEL_OFFSET := by
    intro c hc
    show ((o.nodes.set i (o.nodes.length % 2 ^ 32)) ++ new_block 0 true)[_]? = _
    rw [List.getElem?_append_right (by rw [hlen_set]; omega)]
    rw [hlen_set]
    have hsub : o.nodes.length + c - o.nodes.length = c := by omega
    rw [hsub, new_block_zero_true, List.getElem?_replicate, if_pos hc]
  intro fuel
  induction fuel with
  | zero =>
    intro ni np dp par d2 p2 q hr hd2
    rw [get_node_go_zero] at hr
    cases hr
  | succ f ih =>
    intro ni np dp par d2 p2 q hr hd2
    cases hget : o.nodes[ni + octant_index pos np]? with
    | none =>
      rw [get_node_go_step_none o pos none f ni np dp par hget] at hr
      cases hr
    | some e1 =>
      rw [get_node_go_step_some o pos none f ni np dp par e1 hget] at hr
      by_cases hc : VOXEL_OFFSET ≤ e1 ∨ dp + 1 = (none : Option Nat).getD (2 ^ 32 - 1)
      · rw [if_pos hc] at hr
        simp only [Option.some.injEq, Prod.mk.injEq] at hr
        obtain ⟨hie, hd2e, hp2, hq⟩ := hr
        refine ⟨ni, ?_⟩
        have hgi : O2.nodes[ni + octant_index pos np]? = some o.nodes.length := by
          rw [hie]
          exact hO2_at_i
        rw [get_node_go_step_some O2 pos none (f + 1) ni np dp par o.nodes.length hgi]
        rw [if_neg (by
          simp only [Option.getD_none]
          push_neg
          omega)]
        have hci2 := octant_index_lt pos (np.add (pos_offset (octant_index pos np) (dp + 1)))
        have hblk := hO2_block _ hci2
        rw [get_node_go_step_some O2 pos none f o.nodes.length
            (np.add (pos_offset (octant_index pos np) (dp + 1))) (dp + 1) ni
            VOXEL_OFFSET hblk]
        rw [if_pos (Or.inl le_rfl)]
        rw [hp2, hd2e]
      · rw [if_neg hc] at hr
        have he1lt : e1 < VOXEL_OFFSET := by
          rcases Nat.lt_or_ge e1 VOXEL_OFFSET with h | h
          · exact h
          · exact absurd (Or.inl h) hc
        have hnei : ni + octant_index pos np ≠ i := by
          intro heq
          rw [heq, hi] at hget
          cases hget
          omega
        have hbound : ni + octant_index pos np < o.nodes.length :=
          (List.getElem?_eq_some.mp hget).1
        have hO2get : O2.nodes[ni + octant_index pos np]? = some e1 := by
          rw [hO2_lt _ hbound hnei]
          exact hget
        rw [get_node_go_step_some O2 pos none (f + 1) ni np dp par e1 hO2get]
        rw [if_neg hc]
        exact ih e1 _ (dp + 1) ni d2 p2 q hr hd2

lemma get_node_go_follow_set (o : Octree) (pos : Vec3) (i e v2 : Nat)
    (hi : o.nodes[i]? = some e) (he : VOXEL_OFFSET ≤ e) (hv : VOXEL_OFFSET ≤ v2) :
    ∀ fuel ni (np : Vec3) dp par d2 p2 q,
      get_node_go o pos none fuel ni np dp par = some (i, d2, p2, q) →
      get_node_go (o.setNode i v2) pos none fuel ni np dp par = some (i, d2, p2, q) := by
  have hilen : i < o.nodes.length := (List.getElem?_eq_some.mp hi).1
  intro fuel
  induction fuel with
  | zero =>
    intro ni np dp par d2 p2 q hr
    rw [get_node_go_zero] at hr
    cases hr
  | succ f ih =>
    intro ni np dp par d2 p2 q hr
    cases hget : o.nodes[ni + octant_index pos np]? with
    | none =>
      rw [get_node_go_step_none o pos none f ni np dp par hget] at hr
      cases hr
    | some e1 =>
      rw [get_node_go_step_some o pos none f ni np dp par e1 hget] at hr
      by_cases hc : VOXEL_OFFSET ≤ e1 ∨ dp + 1 = (none : Option Nat).getD (2 ^ 32 - 1)
      · rw [if_pos hc] at hr
        simp only [Option.some.injEq, Prod.mk.injEq] at hr
        obtain ⟨hie, hd2e, hp2, hq⟩ := hr
        have hgi : (o.setNode i v2).nodes[ni + octant_index pos np]? = some v2 := by
          rw [hie]
          show (o.nodes.set i v2)[i]? = some v2
          simp [List.getElem?_set_self, hilen]
        rw [get_node_go_step_some (o.setNode i v2) pos none f ni np dp par v2 hgi]
        rw [if_pos (Or.inl hv)]
        rw [hp2, hie, hd2e, hq]
      · rw [if_neg hc] at hr
        have he1lt : e1 < VOXEL_OFFSET := by
          rcases Nat.lt_or_ge e1 VOXEL_OFFSET with h | h
          · exact h
          · exact absurd (Or.inl h) hc
        have hnei : ni + octant_index pos np ≠ i := by
          intro heq
          rw [heq, hi] at hget
          cases hget
          omega
        have hgi : (o.setNode i v2).nodes[ni + octant_index pos np]? = some e1 := by
          show (o.nodes.set i v2)[ni + octant_index pos np]? = some e1
          rw [List.getElem?_set_ne (by omega)]
          exact hget
        rw [get_node_go_step_some (o.setNode i v2) pos none f ni np dp par e1 hgi]
        rw [if_neg hc]
        exact ih e1 _ (dp + 1) ni d2 p2 q hr

lemma put_in_voxel_step (o : Octree) (pos : Vec3) (u d fuel : Nat)
    (n nd : Nat) (p : Vec3) (q : Nat)
    (hg : get_node o pos none = some (n, nd, p, q)) :
    put_in_voxel o pos u d (fuel + 1) =
      if d = nd then some (o.setNode n (VOXEL_OFFSET + 1))
      else
        match subdivide o n 0 true nd with
        | .ok o2 => put_in_voxel o2 pos u d fuel
        | .error _ => none := by
  conv_lhs => unfold put_in_voxel
  rw [hg]

/-- Claim C6 (amended): `put_in_voxel` repeatedly calls `get_node` with
*unbounded* `max_depth` (`None`); when the returned depth equals the target
depth it rewrites that entry as a solid voxel and returns, otherwise it
subdivides the returned node with an all-zero mask and loops.  For every
position whose existing leaf depth `nd` does not exceed the target depth `d`
(and whose insertion keeps the store below the pointer threshold
`VOXEL_OFFSET`), the loop terminates with a solid voxel at depth `d`. -/
theorem claim_C6_insert_terminates (pos : Vec3) (u d : Nat) :
    ∀ fuel (o : Octree) n nd (p : Vec3) q,
      get_node o pos none = some (n, nd, p, q) →
      nd ≤ d → d < 2 ^ 32 - 1 →
      o.nodes.length + 8 * (d - nd) ≤ VOXEL_OFFSET →
      d - nd < fuel →
      ∃ (o2 : Octree) (m : Nat) (p2 : Vec3) (q2 : Nat), put_in_voxel o pos u d fuel = some o2 ∧
        get_node o2 pos none = some (m, d, p2, q2) ∧
        o2.nodes.getD m 0 = VOXEL_OFFSET + 1 := by
  intro fuel
  induction fuel with
  | zero =>
    intro o n nd p q hg hnd hd hcap hfuel
    omega
  | succ f ih =>
    intro o n nd p q hg hnd hd hcap hfuel
    have hnd32 : nd ≠ 2 ^ 32 - 1 := by omega
    obtain ⟨e, hie, hee⟩ :=
      get_node_go_some_entry o pos (o.nodes.length + 1) 0 Vec3.zero 0 0 n nd p q hg hnd32
    have hnlt : n < o.nodes.length :=
      get_node_go_some_lt o pos none (o.nodes.length + 1) 0 Vec3.zero 0 0 n nd p q hg
    by_cases hdn : d = nd
    · rw [put_in_voxel_step o pos u d f n nd p q hg, if_pos hdn]
      refine ⟨o.setNode n (VOXEL_OFFSET + 1), n, p, q, rfl, ?_, ?_⟩
      · have hfollow := get_node_go_follow_set o pos n e (VOXEL_OFFSET + 1) hie hee
          (by omega) (o.nodes.length + 1) 0 Vec3.zero 0 0 nd p q hg
        have hlen2 : (o.setNode n (VOXEL_OFFSET + 1)).nodes.length = o.nodes.length := by
          simp [Octree.setNode]
        show get_node_go (o.setNode n (VOXEL_OFFSET + 1)) pos none
            ((o.setNode n (VOXEL_OFFSET + 1)).nodes.length + 1) 0 Vec3.zero 0 0
          = some (n, d, p, q)
        rw [hlen2, hdn]
        exact hfollow
      · show (o.nodes.set n (VOXEL_OFFSET + 1)).getD n 0 = VOXEL_OFFSET + 1
        rw [List.getD_eq_getElem?_getD]
        simp [List.getElem?_set_self, hnlt]
    · have hndlt : nd < d := by omega
      have hocap : o.nodes.length < VOXEL_OFFSET := by omega
      have hO2ok := subdivide_ok_of o n 0 true nd e hie hee
      set O2 : Octree :=
        ⟨(o.nodes.set n (o.nodes.length % 2 ^ 32)) ++ new_block 0 true,
         o.voxel_positions⟩ with hO2def
      have hstep : put_in_voxel o pos u d (f + 1) = put_in_voxel O2 pos u d f := by
        rw [put_in_voxel_step o pos u d f n nd p q hg, if_neg hdn, hO2ok]
      have hO2len : O2.nodes.length = o.nodes.length + 8 := by
        rw [hO2def]
        simp [new_block_length]
      obtain ⟨q2, hfollow⟩ := get_node_go_follow_subdivide o pos n e hie hee hocap
        (o.nodes.length + 1) 0 Vec3.zero 0 0 nd p q hg (by omega)
      have hgO2 : get_node O2 pos none
          = some (o.nodes.length + octant_index pos p, nd + 1,
              p.add (pos_offset (octant_index pos p) (nd + 1)), q2) := by
        show get_node_go O2 pos none (O2.nodes.length + 1) 0 Vec3.zero 0 0 = _
        exact get_node_go_mono O2 pos none (o.nodes.length + 1 + 1) (O2.nodes.length + 1)
          0 Vec3.zero 0 0 _ (by omega) hfollow
      obtain ⟨o3, m, p3, q3, hput, hg3, hsolid⟩ :=
        ih O2 (o.nodes.length + octant_index pos p) (nd + 1)
          (p.add (pos_offset (octant_index pos p) (nd + 1))) q2 hgO2
          (by omega) hd (by rw [hO2len]; omega) (by omega)
      exact ⟨o3, m, p3, q3, by rw [hstep]; exact hput, hg3, hsolid⟩

/-- Witness for C6 at a concrete input: inserting at position
`(1/2, 1/2, 1/2)` with target depth 2 into `Octree::new(1)` (existing leaf
depth 1) terminates with a solid voxel at depth 2. -/
theorem claim_C6_witness :
    ∃ (o2 : Octree) (m : Nat) (p2 : Vec3) (q2 : Nat),
      put_in_voxel (Octree.new 1) ⟨⟨1, 1⟩, ⟨1, 1⟩, ⟨1, 1⟩⟩ 1 2 5 = some o2 ∧
      get_node o2 ⟨⟨1, 1⟩, ⟨1, 1⟩, ⟨1, 1⟩⟩ none = some (m, 2, p2, q2) ∧
      o2.nodes.getD m 0 = VOXEL_OFFSET + 1 :=
  claim_C6_insert_terminates ⟨⟨1, 1⟩, ⟨1, 1⟩, ⟨1, 1⟩⟩ 1 2 5 (Octree.new 1) 7 1
    ⟨⟨1, 1⟩, ⟨1, 1⟩, ⟨1, 1⟩⟩ 0 (by decide) (by decide) (by decide) (by decide) (by decide)

/-- Claim C6 (counterexample to the claimed call shape): the claim says the
loop calls `locate` *with the target depth as `max_depth`*; the source passes
`None`.  On a tree whose existing leaf (depth 3) is deeper than the target
depth 2, the mechanism the claim describes terminates after one iteration,
while the loop in the source subdivides ever deeper and never returns (here:
still running after 20 iterations). -/
theorem claim_C6_counterexample :
    put_in_voxel deep_tree neg_corner 1 2 20 = none ∧
    (put_in_voxel_spec_locate deep_tree neg_corner 1 2 20).isSome = true := by
  decide

/-
Node Store invariants for reachable states.
-/

lemma octree_new_nodes (mask : Nat) : (Octree.new mask).nodes = new_block mask true := by
  simp [Octree.new, add_voxels]

lemma octree_new_positions (mask : Nat) :
    (Octree.new mask).voxel_positions = [Vec3.zero] := rfl

lemma fwd_invariant_new (mask : Nat) : fwd_invariant (Octree.new mask) := by
  constructor
  · rw [octree_new_nodes]
    simp [new_block_length]
  · intro i v hget hlt
    have hmem : v ∈ (Octree.new mask).nodes := List.mem_iff_getElem?.mpr ⟨i, hget⟩
    rw [octree_new_nodes] at hmem
    have := new_block_mem_ge mask true v hmem
    omega

lemma fwd_invariant_subdiv (o o2 : Octree) (node mask : Nat) (b : Bool) (d : Nat)
    (hf : fwd_invariant o) (hcap : o.nodes.length < 2 ^ 32)
    (hok : subdivide o node mask b d = .ok o2) : fwd_invariant o2 := by
  obtain ⟨hlen8, hptr⟩ := hf
  obtain ⟨e, hie, hee, rfl⟩ := subdivide_ok_inv o o2 node mask b d hok
  have hnlt : node < o.nodes.length := (List.getElem?_eq_some.mp hie).1
  have hmod : o.nodes.length % 2 ^ 32 = o.nodes.length := Nat.mod_eq_of_lt hcap
  have hlen_set : (o.nodes.set node (o.nodes.length % 2 ^ 32)).length = o.nodes.length := by
    simp
  have hlen2 : ((o.nodes.set node (o.nodes.length % 2 ^ 32)) ++ new_block mask b).length
      = o.nodes.length + 8 := by
    simp [new_block_length]
  constructor
  · rw [hlen2]
    omega
  · intro i v hget hlt
    rw [hlen2]
    by_cases hi : i < o.nodes.length
    · rw [List.getElem?_append_left (by omega)] at hget
      by_cases hni : i = node
      · subst hni
        rw [List.getElem?_set_self hi] at hget
        cases hget
        refine ⟨by rw [hmod]; exact hlen8, by rw [hmod], by omega⟩
      · rw [List.getElem?_set_ne (by omega)] at hget
        obtain ⟨h8, hle, hilt⟩ := hptr i v hget hlt
        exact ⟨h8, by omega, hilt⟩
    · rw [List.getElem?_append_right (by omega)] at hget
      have hmem : v ∈ new_block mask b := List.mem_iff_getElem?.mpr ⟨_, hget⟩
      have := new_block_mem_ge mask b v hmem
      omega

lemma fwd_invariant_set (o : Octree) (node : Nat)
    (hf : fwd_invariant o) : fwd_invariant (o.setNode node (VOXEL_OFFSET + 1)) := by
  obtain ⟨hlen8, hptr⟩ := hf
  constructor
  · simpa [Octree.setNode] using hlen8
  · intro i v hget hlt
    have hget2 : (o.nodes.set node (VOXEL_OFFSET + 1))[i]? = some v := hget
    show v % 8 = 0 ∧ v + 8 ≤ (o.nodes.set node (VOXEL_OFFSET + 1)).length ∧ i < v
    rw [List.length_set]
    by_cases hni : i = node
    · subst hni
      by_cases hi : i < o.nodes.length
      · rw [List.getElem?_set_self hi] at hget2
        cases hget2
        have hvo : 0 < VOXEL_OFFSET := by decide
        omega
      · rw [List.getElem?_eq_none (by simp; omega)] at hget2
        cases hget2
    · rw [List.getElem?_set_ne (fun heq => hni heq.symm)] at hget2
      exact hptr i v hget2 hlt

lemma reach_fwd (o : Octree) (h : Reachable (2 ^ 32) o) : fwd_invariant o := by
  induction h with
  | new mask => exact fwd_invariant_new mask
  | subdiv node mask b d hr hlen hok ih =>
    exact fwd_invariant_subdiv _ _ node mask b d ih hlen hok
  | solidify node hr hn ih => exact fwd_invariant_set _ node ih

lemma parent_block_lt (o : Octree) (hf : fwd_invariant o) (b c : Nat)
    (h : parent_block o b c) : b < c := by
  obtain ⟨j, hj8, hget, hc⟩ := h
  have := (hf.2 (b + j) c hget hc).2.2
  omega

lemma ancestor_block_lt (o : Octree) (hf : fwd_invariant o) (b c : Nat)
    (h : ancestor_block o b c) : b < c := by
  induction h with
  | single h1 => exact parent_block_lt o hf _ _ h1
  | tail h1 h2 ih =>
    have := parent_block_lt o hf _ _ h2
    omega

lemma fwd_to_node_store (o : Octree) (hf : fwd_invariant o) : node_store_invariant o := by
  obtain ⟨hlen8, hptr⟩ := hf
  refine ⟨hlen8, ?_⟩
  intro i v hget hlt
  obtain ⟨h8, hle, hilt⟩ := hptr i v hget hlt
  refine ⟨h8, hle, ?_, ?_⟩
  · intro heq
    unfold block_of at heq
    omega
  · intro hanc
    have := ancestor_block_lt o ⟨hlen8, hptr⟩ _ _ hanc
    unfold block_of at this
    omega

/-- Claim C3 (amended): for every state reachable through subdivisions that
all start while the store is shorter than `2 ^ 32` entries (so the
`as u32` cast of the new block index does not wrap), the Node Store invariant
holds: length a multiple of 8, and every interior pointer a multiple of 8,
in bounds, and aimed at neither its own block nor an ancestor block. -/
theorem claim_C3_node_store_invariant (o : Octree) (h : Reachable (2 ^ 32) o) :
    node_store_invariant o :=
  fwd_to_node_store o (reach_fwd o h)

/-- Witness for C3 at a concrete reachable state. -/
theorem claim_C3_witness : node_store_invariant (Octree.new 5) :=
  claim_C3_node_store_invariant (Octree.new 5) (Reachable.new 5)

/-- Claim C10 (amended): for every state reachable through subdivisions that
all start while the store is below `VOXEL_OFFSET` entries, the attribute
table keeps its single reserved entry, and every entry in the solid range
(`> VOXEL_OFFSET`) is either `VOXEL_OFFSET + 1` or the unresolved placeholder
`u32::MAX`; no operation appends a voxel attribute. -/
theorem claim_C10_attribute_table (o : Octree) (h : Reachable VOXEL_OFFSET o) :
    o.voxel_positions.length = 1 ∧
    ∀ v ∈ o.nodes, VOXEL_OFFSET < v → v = VOXEL_OFFSET + 1 ∨ v = U32_MAX := by
  induction h with
  | new mask =>
    constructor
    · rw [octree_new_positions]
      rfl
    · intro v hv hlt
      rw [octree_new_nodes] at hv
      rcases new_block_mem_cases mask true v hv with h1 | h1 | h1
      · omega
      · exact Or.inl h1
      · exact Or.inr h1
  | subdiv node mask b d hr hlen hok ih =>
    rename_i o1 o2
    obtain ⟨e, hie, hee, rfl⟩ := subdivide_ok_inv _ _ _ _ _ _ hok
    obtain ⟨hpos, hvals⟩ := ih
    refine ⟨hpos, ?_⟩
    intro v hv hlt
    rcases List.mem_append.mp hv with hv | hv
    · rcases List.mem_or_eq_of_mem_set hv with hv | hveq
      · exact hvals v hv hlt
      · have hvo32 : VOXEL_OFFSET < 2 ^ 32 := by decide
        have hmod : o1.nodes.length % 2 ^ 32 = o1.nodes.length := Nat.mod_eq_of_lt (by omega)
        rw [hveq, hmod] at hlt
        omega
    · rcases new_block_mem_cases mask b v hv with h1 | h1 | h1
      · omega
      · exact Or.inl h1
      · exact Or.inr h1
  | solidify node hr hn ih =>
    obtain ⟨hpos, hvals⟩ := ih
    refine ⟨hpos, ?_⟩
    intro v hv hlt
    rcases List.mem_or_eq_of_mem_set hv with hv | hveq
    · exact hvals v hv hlt
    · exact Or.inl hveq

/-- Witness for C10 at a concrete reachable state. -/
theorem claim_C10_witness :
    (Octree.new 3).voxel_positions.length = 1 ∧
    ∀ v ∈ (Octree.new 3).nodes, VOXEL_OFFSET < v → v = VOXEL_OFFSET + 1 ∨ v = U32_MAX :=
  claim_C10_attribute_table (Octree.new 3) (Reachable.new 3)

lemma subdivide_or_self_ok (o t : Octree) (node mask : Nat) (b : Bool) (d : Nat)
    (h : subdivide o node mask b d = .ok t) : subdivide_or_self o node mask b d = t := by
  unfold subdivide_or_self
  rw [h]

lemma wrap_chain_spec : ∀ k, (wrap_chain k).nodes[0]? = some VOXEL_OFFSET ∧
    (wrap_chain k).nodes[8 * (k + 1)]? = some (VOXEL_OFFSET + 1) ∧
    (wrap_chain k).nodes.length = 8 * (k + 2) := by
  intro k
  induction k with
  | zero => exact ⟨by decide, by decide, by decide⟩
  | succ k ih =>
    obtain ⟨h0, hhead, hlen⟩ := ih
    have hok := subdivide_ok_of (wrap_chain k) (8 * (k + 1)) 1 true 1
      (VOXEL_OFFSET + 1) hhead (by omega)
    have heq : wrap_chain (k + 1) =
        ⟨((wrap_chain k).nodes.set (8 * (k + 1)) ((wrap_chain k).nodes.length % 2 ^ 32))
          ++ new_block 1 true, (wrap_chain k).voxel_positions⟩ :=
      subdivide_or_self_ok _ _ _ _ _ _ hok
    have hlen_set : ((wrap_chain k).nodes.set (8 * (k + 1))
        ((wrap_chain k).nodes.length % 2 ^ 32)).length = 8 * (k + 2) := by
      rw [List.length_set]
      exact hlen
    have hblk0 : (new_block 1 true)[0]? = some (VOXEL_OFFSET + 1) := by decide
    refine ⟨?_, ?_, ?_⟩
    · rw [heq]
      show (_ ++ _)[0]? = _
      rw [List.getElem?_append_left (by rw [hlen_set]; omega)]
      rw [List.getElem?_set_ne (by omega)]
      exact h0
    · rw [heq]
      show (_ ++ _)[8 * (k + 1 + 1)]? = _
      rw [List.getElem?_append_right (by rw [hlen_set])]
      rw [hlen_set]
      rw [(by omega : 8 * (k + 1 + 1) - 8 * (k + 2) = 0)]
      exact hblk0
    · rw [heq]
      simp only [List.length_append, List.length_set, new_block_length, hlen]
      omega

/-- Claim C3 (counterexample): continuing the subdivision chain until the
store holds exactly `2 ^ 32` entries and then subdividing entry 0 — a state
reachable from `Octree::new(0)` by successful `subdivide` calls alone — makes
the `as u32` cast wrap: the pointer written at entry 0 is
`2 ^ 32 % 2 ^ 32 = 0`, i.e. entry 0 points at its own block, violating the
claimed invariant. -/
theorem claim_C3_counterexample : ¬ node_store_invariant wrap_tree := by
  intro hinv
  obtain ⟨-, hptr⟩ := hinv
  obtain ⟨h0, hhead, hlen⟩ := wrap_chain_spec (2 ^ 29 - 2)
  have hok := subdivide_ok_of (wrap_chain (2 ^ 29 - 2)) 0 1 true 1 VOXEL_OFFSET h0 le_rfl
  have heq : wrap_tree =
      ⟨((wrap_chain (2 ^ 29 - 2)).nodes.set 0
          ((wrap_chain (2 ^ 29 - 2)).nodes.length % 2 ^ 32))
        ++ new_block 1 true, (wrap_chain (2 ^ 29 - 2)).voxel_positions⟩ :=
    subdivide_or_self_ok _ _ _ _ _ _ hok
  have hmod : (wrap_chain (2 ^ 29 - 2)).nodes.length % 2 ^ 32 = 0 := by
    rw [hlen]
    decide
  have hposlen : 0 < (wrap_chain (2 ^ 29 - 2)).nodes.length := by
    rw [hlen]
    decide
  have hlen_set : ((wrap_chain (2 ^ 29 - 2)).nodes.set 0
      ((wrap_chain (2 ^ 29 - 2)).nodes.length % 2 ^ 32)).length
      = 8 * (2 ^ 29 - 2 + 2) := by
    rw [List.length_set]
    exact hlen
  have hget0 : wrap_tree.nodes[0]? = some 0 := by
    rw [heq]
    show (_ ++ _)[0]? = _
    rw [List.getElem?_append_left (by rw [hlen_set]; decide)]
    rw [List.getElem?_set_self hposlen, hmod]
  have hv := hptr 0 0 hget0 (by decide)
  obtain ⟨-, -, hown, -⟩ := hv
  exact hown (by decide)

/-
Loader claims: the sparse-voxel binary loader and the point-cloud loader.
-/

/-- Claim C7 (evaluation at failing inputs): on a 10-byte file the loader
panics reading `data[16]`, and on a 17-byte file declaring `top_level = 255`
it panics reading the level-count table past end-of-file.  The loader has no
`MalformedData` (or any other) error value: the only failure mode of
`load_octree` is the unchecked-index panic, so malformed headers never
produce an error result. -/
theorem claim_C7_no_bounds_checks :
    load_octree (List.replicate 10 0) 3 100 = .error .panic ∧
    load_octree (List.replicate 16 0 ++ [255]) 3 100 = .error .panic := by
  decide

lemma load_vox_build_nil (depth size fuel : Nat) (o : Octree) :
    load_vox_build depth size [] fuel o = .ok o := rfl

lemma load_vox_build_cons_some (depth size fuel : Nat) (o o2 : Octree)
    (v : Nat × Nat × Nat) (rest : List (Nat × Nat × Nat))
    (hp : put_in_voxel o (vox_transform depth size v) 1 depth fuel = some o2) :
    load_vox_build depth size (v :: rest) fuel o = load_vox_build depth size rest fuel o2 := by
  conv_lhs => unfold load_vox_build
  rw [hp]

lemma load_vox_build_cons_none (depth size fuel : Nat) (o : Octree)
    (v : Nat × Nat × Nat) (rest : List (Nat × Nat × Nat))
    (hp : put_in_voxel o (vox_transform depth size v) 1 depth fuel = none) :
    load_vox_build depth size (v :: rest) fuel o = .error .panic := by
  conv_lhs => unfold load_vox_build
  rw [hp]

lemma load_vox_build_error_is_panic (depth size : Nat) :
    ∀ (voxels : List (Nat × Nat × Nat)) (o : Octree) (fuel : Nat) (e : VoxError),
      load_vox_build depth size voxels fuel o = .error e → e = .panic := by
  intro voxels
  induction voxels with
  | nil =>
    intro o fuel e h
    rw [load_vox_build_nil] at h
    cases h
  | cons v rest ih =>
    intro o fuel e h
    cases hp : put_in_voxel o (vox_transform depth size v) 1 depth fuel with
    | none =>
      rw [load_vox_build_cons_none depth size fuel o v rest hp] at h
      cases h
      rfl
    | some o2 =>
      rw [load_vox_build_cons_some depth size fuel o o2 v rest hp] at h
      exact ih o2 fuel e h

lemma load_vox_checks_cube (sx sy sz : Nat) (hc : sx = sy ∧ sx = sz ∧ sy = sz) :
    load_vox_checks sx sy sz =
      if pow2_check_passes sx then .ok (Nat.log2 sx) else .error .notPow2 := by
  unfold load_vox_checks
  rw [if_neg (by push_neg; exact ⟨hc.1, hc.2.1, hc.2.2⟩)]

lemma load_vox_checks_not_cube (sx sy sz : Nat) (hc : ¬(sx = sy ∧ sx = sz ∧ sy = sz)) :
    load_vox_checks sx sy sz = .error .notCube := by
  unfold load_vox_checks
  rw [if_pos (by tauto)]

lemma load_vox_unfold (sx sy sz : Nat) (voxels : List (Nat × Nat × Nat)) (fuel : Nat) :
    load_vox sx sy sz voxels fuel =
      match load_vox_checks sx sy sz with
      | .error e => .error e
      | .ok depth => load_vox_build depth sx voxels fuel (Octree.new 0) := rfl

/-- Claim C9 (amended): on model sizes up to `2 ^ 20` (where the `f32`
power-of-two test is exactly determined), `load_vox` fails with the non-cube
error exactly when the bounding box is not a cube, and — for cubes — with the
power-of-two error exactly when the side is *nonzero* and not a power of two;
a cubic side that is zero or a power of two passes the geometry checks with
depth `log2(side)` (in particular side 0 passes, with depth 0). -/
theorem claim_C9_invalid_geometry (sx sy sz : Nat) (voxels : List (Nat × Nat × Nat))
    (fuel : Nat) (hx : sx ≤ 2 ^ 20) (hy : sy ≤ 2 ^ 20) (hz : sz ≤ 2 ^ 20) :
    (load_vox sx sy sz voxels fuel = .error .notCube ↔ ¬(sx = sy ∧ sx = sz ∧ sy = sz)) ∧
    ((sx = sy ∧ sx = sz ∧ sy = sz) →
      (load_vox sx sy sz voxels fuel = .error .notPow2 ↔
        (sx ≠ 0 ∧ sx ≠ 2 ^ Nat.log2 sx))) ∧
    ((sx = sy ∧ sx = sz ∧ sy = sz) ∧ (sx = 0 ∨ sx = 2 ^ Nat.log2 sx) →
      load_vox_checks sx sy sz = .ok (Nat.log2 sx)) := by
  by_cases hcube : sx = sy ∧ sx = sz ∧ sy = sz
  · have hch := load_vox_checks_cube sx sy sz hcube
    by_cases hpow : pow2_check_passes sx
    · rw [if_pos hpow] at hch
      have hload : load_vox sx sy sz voxels fuel
          = load_vox_build (Nat.log2 sx) sx voxels fuel (Octree.new 0) := by
        rw [load_vox_unfold, hch]
      have hzero_or : sx = 0 ∨ sx = 2 ^ Nat.log2 sx := by
        unfold pow2_check_passes at hpow
        simpa using hpow
      refine ⟨?_, ?_, ?_⟩
      · constructor
        · intro h
          rw [hload] at h
          have := load_vox_build_error_is_panic (Nat.log2 sx) sx voxels (Octree.new 0)
            fuel _ h
          cases this
        · intro h
          exact absurd hcube h
      · intro hc2
        constructor
        · intro h
          rw [hload] at h
          have := load_vox_build_error_is_panic (Nat.log2 sx) sx voxels (Octree.new 0)
            fuel _ h
          cases this
        · intro h
          rcases hzero_or with h0 | h0
          · exact absurd h0 h.1
          · exact absurd h0 h.2
      · intro hcp
        exact hch
    · rw [if_neg hpow] at hch
      have hload : load_vox sx sy sz voxels fuel = .error .notPow2 := by
        rw [load_vox_unfold, hch]
      have hnot : sx ≠ 0 ∧ sx ≠ 2 ^ Nat.log2 sx := by
        unfold pow2_check_passes at hpow
        simpa [not_or] using hpow
      refine ⟨?_, ?_, ?_⟩
      · rw [hload]
        constructor
        · intro h
          exact absurd h (by decide)
        · intro h
          exact absurd hcube h
      · intro hc2
        rw [hload]
        exact ⟨fun h => hnot, fun h => rfl⟩
      · intro hcp
        rcases hcp.2 with h0 | h0
        · exact absurd h0 hnot.1
        · exact absurd h0 hnot.2
  · have hch := load_vox_checks_not_cube sx sy sz hcube
    have hload : load_vox sx sy sz voxels fuel = .error .notCube := by
      rw [load_vox_unfold, hch]
    refine ⟨?_, ?_, ?_⟩
    · rw [hload]
      exact ⟨fun h => hcube, fun h => rfl⟩
    · intro hc
      exact absurd hc hcube
    · intro hcp
      exact absurd hcp.1 hcube

/-- Witness for C9 at a concrete input: a 4-cube with no voxels. -/
theorem claim_C9_witness :
    (load_vox 4 4 4 [] 1 = .error .notCube ↔ ¬((4 : Nat) = 4 ∧ (4 : Nat) = 4 ∧ (4 : Nat) = 4)) ∧
    (((4 : Nat) = 4 ∧ (4 : Nat) = 4 ∧ (4 : Nat) = 4) →
      (load_vox 4 4 4 [] 1 = .error .notPow2 ↔
        ((4 : Nat) ≠ 0 ∧ (4 : Nat) ≠ 2 ^ Nat.log2 4))) ∧
    (((4 : Nat) = 4 ∧ (4 : Nat) = 4 ∧ (4 : Nat) = 4) ∧ ((4 : Nat) = 0 ∨ (4 : Nat) = 2 ^ Nat.log2 4) →
      load_vox_checks 4 4 4 = .ok (Nat.log2 4)) :=
  claim_C9_invalid_geometry 4 4 4 [] 1 (by decide) (by decide) (by decide)

/-- Claim C9 (counterexample): a decoded model with size `(0, 0, 0)` is a
cube whose side, 0, is not a power of two, yet `load_vox` does not fail with
the geometry error: the power-of-two test `log2(size) != floor` of the source
passes at 0 because `log2f(0.0)` is negative infinity, which equals its own
floor, so the loader proceeds (here: returns the empty tree). -/
theorem claim_C9_counterexample :
    load_vox 0 0 0 [] 1 = .ok (Octree.new 0) ∧ (0 : Nat) ≠ 2 ^ Nat.log2 0 := by
  constructor
  · rfl
  · have h2 : 0 < 2 ^ Nat.log2 0 := pow_pos (by norm_num) _
    omega

/-
The streaming decode loop of `load_octree`.
-/

lemma load_loop_done (data : List Nat) (ds ne fuel : Nat) (o : Octree) (di ni : Nat)
    (h : ¬ ni < o.nodes.length) :
    load_loop data ds ne (fuel + 1) o di ni = .ok o := by
  conv_lhs => unfold load_loop
  rw [if_neg h]

lemma load_loop_skip (data : List Nat) (ds ne fuel : Nat) (o : Octree) (di ni : Nat)
    (h : ni < o.nodes.length) (hv : o.nodes.getD ni 0 = VOXEL_OFFSET) :
    load_loop data ds ne (fuel + 1) o di ni = load_loop data ds ne fuel o di (ni + 1) := by
  conv_lhs => unfold load_loop
  rw [if_pos h, if_neg (by rw [hv]; exact fun hne => hne rfl)]

lemma load_loop_solid (data : List Nat) (ds ne fuel : Nat) (o : Octree) (di ni : Nat)
    (h : ni < o.nodes.length) (hv : o.nodes.getD ni 0 ≠ VOXEL_OFFSET) (hdi : ¬ di < ne) :
    load_loop data ds ne (fuel + 1) o di ni
      = load_loop data ds ne fuel (o.setNode ni (VOXEL_OFFSET + 1)) (di + 1) (ni + 1) := by
  conv_lhs => unfold load_loop
  rw [if_pos h, if_pos hv, if_neg hdi]

lemma load_loop_subdiv (data : List Nat) (ds ne fuel : Nat) (o o2 : Octree)
    (di ni cm : Nat)
    (h : ni < o.nodes.length) (hv : o.nodes.getD ni 0 ≠ VOXEL_OFFSET) (hdi : di < ne)
    (hb : data[ds + di]? = some cm) (hs : subdivide o ni cm false 0 = .ok o2) :
    load_loop data ds ne (fuel + 1) o di ni
      = load_loop data ds ne fuel o2 (di + 1) (ni + 1) := by
  conv_lhs => unfold load_loop
  rw [if_pos h, if_pos hv, if_pos hdi, hb]
  show (match subdivide o ni cm false 0 with
    | .ok o2 => load_loop data ds ne fuel o2 (di + 1) (ni + 1)
    | .error _ => .error .panic) = _
  rw [hs]

lemma load_loop_ok (data : List Nat) (ds ne : Nat) (hdata : ds + ne ≤ data.length) :
    ∀ fuel (o : Octree) di ni,
      o.nodes.length % 8 = 0 →
      (∀ j v, ni ≤ j → o.nodes[j]? = some v → VOXEL_OFFSET ≤ v) →
      (∀ j v, j < ni → o.nodes[j]? = some v → v ≠ U32_MAX) →
      (o.nodes.length - ni) + 8 * (ne - di) < fuel →
      ∃ t, load_loop data ds ne fuel o di ni = .ok t ∧ ∀ v ∈ t.nodes, v ≠ U32_MAX := by
  intro fuel
  induction fuel with
  | zero =>
    intro o di ni h8 hinv1 hinv2 hfuel
    omega
  | succ f ih =>
    intro o di ni h8 hinv1 hinv2 hfuel
    by_cases hni : ni < o.nodes.length
    · have hge : ∃ e, o.nodes[ni]? = some e := ⟨_, List.getElem?_eq_getElem hni⟩
      obtain ⟨e, he⟩ := hge
      have hgd : o.nodes.getD ni 0 = e := by
        rw [List.getD_eq_getElem?_getD, he]
        rfl
      have hevo : VOXEL_OFFSET ≤ e := hinv1 ni e le_rfl he
      by_cases hocc : o.nodes.getD ni 0 ≠ VOXEL_OFFSET
      · by_cases hdi : di < ne
        · have hbyte : data[ds + di]? = some (data.getD (ds + di) 0) := by
            rw [List.getD_eq_getElem?_getD, List.getElem?_eq_getElem (by omega)]
            rfl
          have hok := subdivide_ok_of o ni (data.getD (ds + di) 0) false 0 e he hevo
          rw [load_loop_subdiv data ds ne f o _ di ni (data.getD (ds + di) 0)
            hni hocc hdi hbyte hok]
          set O2 : Octree :=
            ⟨(o.nodes.set ni (o.nodes.length % 2 ^ 32)) ++ new_block (data.getD (ds + di) 0) false,
             o.voxel_positions⟩ with hO2def
          have hlen2 : O2.nodes.length = o.nodes.length + 8 := by
            rw [hO2def]
            simp [new_block_length]
          have hptrval : (o.nodes.length % 2 ^ 32) % 8 = 0 := by
            rw [Nat.mod_mod_of_dvd _ (by norm_num : (8 : Nat) ∣ 2 ^ 32)]
            exact h8
          refine ih O2 (di + 1) (ni + 1) (by rw [hlen2]; omega) ?_ ?_ (by rw [hlen2]; omega)
          · intro j v hj hget
            by_cases hjlt : j < o.nodes.length
            · have : O2.nodes[j]? = o.nodes[j]? := by
                rw [hO2def]
                show ((o.nodes.set ni (o.nodes.length % 2 ^ 32)) ++ _)[j]? = _
                rw [List.getElem?_append_left (by simpa using hjlt)]
                exact List.getElem?_set_ne (by omega)
              rw [this] at hget
              exact hinv1 j v (by omega) hget
            · have : O2.nodes[j]? = (new_block (data.getD (ds + di) 0) false)[j - o.nodes.length]? := by
                rw [hO2def]
                show ((o.nodes.set ni (o.nodes.length % 2 ^ 32)) ++ _)[j]? = _
                rw [List.getElem?_append_right (by simpa using (by omega : o.nodes.length ≤ j))]
                simp
              rw [this] at hget
              exact new_block_mem_ge _ _ v (List.mem_iff_getElem?.mpr ⟨_, hget⟩)
          · intro j v hj hget
            by_cases hjni : j = ni
            · subst hjni
              have : O2.nodes[j]? = some (o.nodes.length % 2 ^ 32) := by
                rw [hO2def]
                show ((o.nodes.set j (o.nodes.length % 2 ^ 32)) ++ _)[j]? = _
                rw [List.getElem?_append_left (by simpa using hni)]
                exact List.getElem?_set_self hni
              rw [this] at hget
              cases hget
              intro hu
              rw [hu] at hptrval
              exact absurd hptrval (by decide)
            · have : O2.nodes[j]? = o.nodes[j]? := by
                rw [hO2def]
                show ((o.nodes.set ni (o.nodes.length % 2 ^ 32)) ++ _)[j]? = _
                rw [List.getElem?_append_left (by simp; omega)]
                exact List.getElem?_set_ne (by omega)
              rw [this] at hget
              exact hinv2 j v (by omega) hget
        · rw [load_loop_solid data ds ne f o di ni hni hocc hdi]
          have hlen2 : (o.setNode ni (VOXEL_OFFSET + 1)).nodes.length = o.nodes.length := by
            simp [Octree.setNode]
          refine ih _ (di + 1) (ni + 1) (by rw [hlen2]; omega) ?_ ?_ (by rw [hlen2]; omega)
          · intro j v hj hget
            have : (o.setNode ni (VOXEL_OFFSET + 1)).nodes[j]? = o.nodes[j]? := by
              show (o.nodes.set ni (VOXEL_OFFSET + 1))[j]? = _
              exact List.getElem?_set_ne (by omega)
            rw [this] at hget
            exact hinv1 j v (by omega) hget
          · intro j v hj hget
            by_cases hjni : j = ni
            · subst hjni
              have : (o.setNode j (VOXEL_OFFSET + 1)).nodes[j]? = some (VOXEL_OFFSET + 1) := by
                show (o.nodes.set j (VOXEL_OFFSET + 1))[j]? = _
                exact List.getElem?_set_self hni
              rw [this] at hget
              cases hget
              decide
            · have : (o.setNode ni (VOXEL_OFFSET + 1)).nodes[j]? = o.nodes[j]? := by
                show (o.nodes.set ni (VOXEL_OFFSET + 1))[j]? = _
                exact List.getElem?_set_ne (by omega)
              rw [this] at hget
              exact hinv2 j v (by omega) hget
      · rw [not_not] at hocc
        rw [load_loop_skip data ds ne f o di ni hni hocc]
        refine ih o di (ni + 1) h8 ?_ ?_ (by omega)
        · intro j v hj hget
          exact hinv1 j v (by omega) hget
        · intro j v hj hget
          by_cases hjni : j = ni
          · subst hjni
            rw [he] at hget
            cases hget
            rw [hgd] at hocc
            rw [hocc]
            decide
          · exact hinv2 j v (by omega) hget
    · rw [load_loop_done data ds ne f o di ni hni]
      refine ⟨o, rfl, ?_⟩
      intro v hv
      obtain ⟨j, hget⟩ := List.mem_iff_getElem?.mp hv
      have hjlt : j < o.nodes.length := (List.getElem?_eq_some.mp hget).1
      exact hinv2 j v (by omega) hget

lemma mapM_option_eq_map (f : Nat → Option Nat) (g : Nat → Nat) :
    ∀ l : List Nat, (∀ x ∈ l, f x = some (g x)) → l.mapM f = some (l.map g) := by
  intro l
  induction l with
  | nil => intro h; rfl
  | cons x xs ih =>
    intro h
    rw [List.mapM_cons, h x (by simp), ih (fun y hy => h y (by simp [hy]))]
    rfl

lemma load_octree_unfold (data : List Nat) (octree_depth fuel top : Nat)
    (counts : List Nat) (root_mask : Nat)
    (h16 : data[16]? = some top)
    (hm : (List.range (top + 1)).mapM (fun i => read_u32 data (20 + 4 * i)) = some counts)
    (hdep : octree_depth ≤ top + 1)
    (hroot : data[20 + 4 * (top + 1)]? = some root_mask) :
    load_octree data octree_depth fuel =
      load_loop data (20 + 4 * (top + 1)) (((counts.take octree_depth).sum) % 2 ^ 32) fuel
        (Octree.new root_mask) 1 0 := by
  conv_lhs => unfold load_octree
  rw [h16]
  show (match (List.range (top + 1)).mapM (fun i => read_u32 data (20 + 4 * i)) with
    | none => (Except.error LoadError.panic : Except LoadError Octree)
    | some node_counts =>
      if octree_depth ≤ top + 1 then
        match data[20 + 4 * (top + 1)]? with
        | none => Except.error LoadError.panic
        | some root_mask2 =>
          load_loop data (20 + 4 * (top + 1))
            (((node_counts.take octree_depth).sum) % 2 ^ 32) fuel
            (Octree.new root_mask2) 1 0
      else Except.error LoadError.panic) = _
  rw [hm]
  show (if octree_depth ≤ top + 1 then
      match data[20 + 4 * (top + 1)]? with
      | none => (Except.error LoadError.panic : Except LoadError Octree)
      | some root_mask2 =>
        load_loop data (20 + 4 * (top + 1))
          (((counts.take octree_depth).sum) % 2 ^ 32) fuel
          (Octree.new root_mask2) 1 0
    else Except.error LoadError.panic) = _
  rw [if_pos hdep, hroot]

/-- Claim C1: over a well-formed sparse-voxel binary input (header readable,
`target_depth ≤ top_level + 1`, level-count sum below `2 ^ 32` and mask
stream inside the file), `load_octree` computes the byte cutoff as the sum of
the first `target_depth` level counts and runs the index-order scan
`load_loop` from the root tree with that cutoff (each occupied entry consumes
the next mask byte and is subdivided non-bottom while fewer than cutoff mask
bytes have been consumed, and is rewritten as the solid voxel
`VOXEL_OFFSET + 1` afterwards), and with enough fuel the scan completes with
no unresolved `u32::MAX` placeholder left — the tree is fully truncated to
the requested depth. -/
theorem claim_C1_streaming_truncation (data : List Nat)
    (octree_depth top root_mask fuel : Nat) (cnt : Nat → Nat)
    (h16 : data[16]? = some top)
    (hcnt : ∀ i, i < top + 1 → read_u32 data (20 + 4 * i) = some (cnt i))
    (hdep : octree_depth ≤ top + 1)
    (hsum : ((List.range octree_depth).map cnt).sum < 2 ^ 32)
    (hroot : data[20 + 4 * (top + 1)]? = some root_mask)
    (hdata : 20 + 4 * (top + 1) + ((List.range octree_depth).map cnt).sum ≤ data.length)
    (hfuel : 8 + 8 * ((List.range octree_depth).map cnt).sum < fuel) :
    load_octree data octree_depth fuel
      = load_loop data (20 + 4 * (top + 1)) (((List.range octree_depth).map cnt).sum) fuel
          (Octree.new root_mask) 1 0 ∧
    ∃ t, load_octree data octree_depth fuel = .ok t ∧ ∀ v ∈ t.nodes, v ≠ U32_MAX := by
  have hm : (List.range (top + 1)).mapM (fun i => read_u32 data (20 + 4 * i))
      = some ((List.range (top + 1)).map cnt) :=
    mapM_option_eq_map _ cnt _ (fun x hx => hcnt x (List.mem_range.mp hx))
  have htake : (((List.range (top + 1)).map cnt).take octree_depth)
      = (List.range octree_depth).map cnt := by
    rw [← List.map_take, List.take_range, Nat.min_eq_left hdep]
  have hmod : ((((List.range (top + 1)).map cnt).take octree_depth).sum) % 2 ^ 32
      = ((List.range octree_depth).map cnt).sum := by
    rw [htake]
    exact Nat.mod_eq_of_lt hsum
  have hunfold := load_octree_unfold data octree_depth fuel top
    ((List.range (top + 1)).map cnt) root_mask h16 hm hdep hroot
  rw [hmod] at hunfold
  refine ⟨hunfold, ?_⟩
  rw [hunfold]
  have hlen8 : (Octree.new root_mask).nodes.length = 8 := by
    rw [octree_new_nodes, new_block_length]
  refine load_loop_ok data (20 + 4 * (top + 1)) _ hdata fuel (Octree.new root_mask) 1 0
    (by rw [hlen8]) ?_ (by omega) (by rw [hlen8]; omega)
  intro j v hj hget
  rw [octree_new_nodes] at hget
  exact new_block_mem_ge _ _ v (List.mem_iff_getElem?.mpr ⟨_, hget⟩)

/-- Witness for C1 on a concrete 29-byte well-formed file: `top_level = 1`,
level counts `[1, 0]`, root mask `0b11`, target depth 1 (cutoff 1). -/
theorem claim_C1_witness :
    load_octree (List.replicate 16 0 ++ [1, 0, 0, 0, 1, 0, 0, 0, 0, 0, 0, 0, 3]) 1 20
      = load_loop (List.replicate 16 0 ++ [1, 0, 0, 0, 1, 0, 0, 0, 0, 0, 0, 0, 3])
          (20 + 4 * (1 + 1))
          (((List.range 1).map (fun i => if i = 0 then 1 else 0)).sum) 20
          (Octree.new 3) 1 0 ∧
    ∃ t, load_octree (List.replicate 16 0 ++ [1, 0, 0, 0, 1, 0, 0, 0, 0, 0, 0, 0, 3]) 1 20
      = .ok t ∧ ∀ v ∈ t.nodes, v ≠ U32_MAX :=
  claim_C1_streaming_truncation (List.replicate 16 0 ++ [1, 0, 0, 0, 1, 0, 0, 0, 0, 0, 0, 0, 3])
    1 1 3 20 (fun i => if i = 0 then 1 else 0)
    (by decide) (by decide) (by decide) (by decide) (by decide) (by decide) (by decide)

/-
Every operation of the program lands in the `Reachable` predicate, so the
invariant theorems cover `subdivide`, `put_in_voxel`, `load_octree` and
`load_vox` alike.
-/

lemma put_in_voxel_zero (o : Octree) (pos : Vec3) (u d : Nat) :
    put_in_voxel o pos u d 0 = none := rfl

lemma put_in_voxel_none (o : Octree) (pos : Vec3) (u d fuel : Nat)
    (hg : get_node o pos none = none) :
    put_in_voxel o pos u d (fuel + 1) = none := by
  conv_lhs => unfold put_in_voxel
  rw [hg]

lemma put_in_voxel_length_mono (pos : Vec3) (u d : Nat) :
    ∀ fuel (o o2 : Octree), put_in_voxel o pos u d fuel = some o2 →
      o.nodes.length ≤ o2.nodes.length := by
  intro fuel
  induction fuel with
  | zero =>
    intro o o2 h
    rw [put_in_voxel_zero] at h
    cases h
  | succ f ih =>
    intro o o2 h
    cases hg : get_node o pos none with
    | none =>
      rw [put_in_voxel_none o pos u d f hg] at h
      cases h
    | some r =>
      obtain ⟨n, nd, p, q⟩ := r
      rw [put_in_voxel_step o pos u d f n nd p q hg] at h
      by_cases hdn : d = nd
      · rw [if_pos hdn] at h
        cases h
        simp [Octree.setNode]
      · rw [if_neg hdn] at h
        cases hs : subdivide o n 0 true nd with
        | error e =>
          rw [hs] at h
          exact absurd h (by simp)
        | ok o3 =>
          rw [hs] at h
          have h2 : put_in_voxel o3 pos u d f = some o2 := h
          have hm := ih o3 o2 h2
          have hl := subdivide_ok_length o o3 n 0 true nd hs
          omega

lemma put_in_voxel_reachable (cap : Nat) (pos : Vec3) (u d : Nat) :
    ∀ fuel (o o2 : Octree), put_in_voxel o pos u d fuel = some o2 →
      Reachable cap o → o2.nodes.length ≤ cap → Reachable cap o2 := by
  intro fuel
  induction fuel with
  | zero =>
    intro o o2 h hr hcap
    rw [put_in_voxel_zero] at h
    cases h
  | succ f ih =>
    intro o o2 h hr hcap
    cases hg : get_node o pos none with
    | none =>
      rw [put_in_voxel_none o pos u d f hg] at h
      cases h
    | some r =>
      obtain ⟨n, nd, p, q⟩ := r
      rw [put_in_voxel_step o pos u d f n nd p q hg] at h
      by_cases hdn : d = nd
      · rw [if_pos hdn] at h
        cases h
        exact Reachable.solidify n hr
          (get_node_go_some_lt o pos none (o.nodes.length + 1) 0 Vec3.zero 0 0 n nd p q hg)
      · rw [if_neg hdn] at h
        cases hs : subdivide o n 0 true nd with
        | error e =>
          rw [hs] at h
          exact absurd h (by simp)
        | ok o3 =>
          rw [hs] at h
          have h2 : put_in_voxel o3 pos u d f = some o2 := h
          have hm := put_in_voxel_length_mono pos u d f o3 o2 h2
          have hl := subdivide_ok_length o o3 n 0 true nd hs
          have hr3 : Reachable cap o3 := Reachable.subdiv n 0 true nd hr (by omega) hs
          exact ih o3 o2 h2 hr3 hcap

lemma load_loop_length_mono (data : List Nat) (ds ne : Nat) :
    ∀ fuel (o : Octree) di ni t, load_loop data ds ne fuel o di ni = .ok t →
      o.nodes.length ≤ t.nodes.length := by
  intro fuel
  induction fuel with
  | zero =>
    intro o di ni t h
    cases h
  | succ f ih =>
    intro o di ni t h
    by_cases hni : ni < o.nodes.length
    · by_cases hocc : o.nodes.getD ni 0 ≠ VOXEL_OFFSET
      · by_cases hdi : di < ne
        · cases hb : data[ds + di]? with
          | none =>
            have : load_loop data ds ne (f + 1) o di ni = .error .panic := by
              conv_lhs => unfold load_loop
              rw [if_pos hni, if_pos hocc, if_pos hdi, hb]
            rw [this] at h
            cases h
          | some cm =>
            cases hs : subdivide o ni cm false 0 with
            | error e =>
              have : load_loop data ds ne (f + 1) o di ni = .error .panic := by
                conv_lhs => unfold load_loop
                rw [if_pos hni, if_pos hocc, if_pos hdi, hb]
                show (match subdivide o ni cm false 0 with
                  | .ok o2 => load_loop data ds ne f o2 (di + 1) (ni + 1)
                  | .error _ => .error .panic) = _
                rw [hs]
              rw [this] at h
              cases h
            | ok o2 =>
              rw [load_loop_subdiv data ds ne f o o2 di ni cm hni hocc hdi hb hs] at h
              have hm := ih o2 (di + 1) (ni + 1) t h
              have hl := subdivide_ok_length o o2 ni cm false 0 hs
              omega
        · rw [load_loop_solid data ds ne f o di ni hni hocc hdi] at h
          have hm := ih _ (di + 1) (ni + 1) t h
          have hl : (o.setNode ni (VOXEL_OFFSET + 1)).nodes.length = o.nodes.length := by
            simp [Octree.setNode]
          omega
      · rw [not_not] at hocc
        rw [load_loop_skip data ds ne f o di ni hni hocc] at h
        exact ih o di (ni + 1) t h
    · rw [load_loop_done data ds ne f o di ni hni] at h
      cases h
      exact le_rfl

lemma load_loop_reachable (cap : Nat) (data : List Nat) (ds ne : Nat) :
    ∀ fuel (o : Octree) di ni t, load_loop data ds ne fuel o di ni = .ok t →
      Reachable cap o → t.nodes.length ≤ cap → Reachable cap t := by
  intro fuel
  induction fuel with
  | zero =>
    intro o di ni t h hr hcap
    cases h
  | succ f ih =>
    intro o di ni t h hr hcap
    by_cases hni : ni < o.nodes.length
    · by_cases hocc : o.nodes.getD ni 0 ≠ VOXEL_OFFSET
      · by_cases hdi : di < ne
        · cases hb : data[ds + di]? with
          | none =>
            have : load_loop data ds ne (f + 1) o di ni = .error .panic := by
              conv_lhs => unfold load_loop
              rw [if_pos hni, if_pos hocc, if_pos hdi, hb]
            rw [this] at h
            cases h
          | some cm =>
            cases hs : subdivide o ni cm false 0 with
            | error e =>
              have : load_loop data ds ne (f + 1) o di ni = .error .panic := by
                conv_lhs => unfold load_loop
                rw [if_pos hni, if_pos hocc, if_pos hdi, hb]
                show (match subdivide o ni cm false 0 with
                  | .ok o2 => load_loop data ds ne f o2 (di + 1) (ni + 1)
                  | .error _ => .error .panic) = _
                rw [hs]
              rw [this] at h
              cases h
            | ok o2 =>
              rw [load_loop_subdiv data ds ne f o o2 di ni cm hni hocc hdi hb hs] at h
              have hm := load_loop_length_mono data ds ne f o2 (di + 1) (ni + 1) t h
              have hl := subdivide_ok_length o o2 ni cm false 0 hs
              have hr2 : Reachable cap o2 := Reachable.subdiv ni cm false 0 hr (by omega) hs
              exact ih o2 (di + 1) (ni + 1) t h hr2 hcap
        · rw [load_loop_solid data ds ne f o di ni hni hocc hdi] at h
          have hr2 : Reachable cap (o.setNode ni (VOXEL_OFFSET + 1)) :=
            Reachable.solidify ni hr hni
          exact ih _ (di + 1) (ni + 1) t h hr2 hcap
      · rw [not_not] at hocc
        rw [load_loop_skip data ds ne f o di ni hni hocc] at h
        exact ih o di (ni + 1) t h hr hcap
    · rw [load_loop_done data ds ne f o di ni hni] at h
      cases h
      exact hr

lemma load_octree_reachable (cap : Nat) (data : List Nat) (octree_depth fuel : Nat)
    (t : Octree) (h : load_octree data octree_depth fuel = .ok t)
    (hcap : t.nodes.length ≤ cap) : Reachable cap t := by
  unfold load_octree at h
  cases h16 : data[16]? with
  | none =>
    rw [h16] at h
    exact absurd h (by simp)
  | some top =>
    rw [h16] at h
    have h2 : (match (List.range (top + 1)).mapM (fun i => read_u32 data (20 + 4 * i)) with
      | none => (Except.error LoadError.panic : Except LoadError Octree)
      | some node_counts =>
        if octree_depth ≤ top + 1 then
          match data[20 + 4 * (top + 1)]? with
          | none => Except.error LoadError.panic
          | some root_mask =>
            load_loop data (20 + 4 * (top + 1))
              (((node_counts.take octree_depth).sum) % 2 ^ 32) fuel
              (Octree.new root_mask) 1 0
        else Except.error LoadError.panic) = .ok t := h
    cases hm : (List.range (top + 1)).mapM (fun i => read_u32 data (20 + 4 * i)) with
    | none =>
      rw [hm] at h2
      exact absurd h2 (by simp)
    | some counts =>
      rw [hm] at h2
      have h3 : (if octree_depth ≤ top + 1 then
          match data[20 + 4 * (top + 1)]? with
          | none => (Except.error LoadError.panic : Except LoadError Octree)
          | some root_mask =>
            load_loop data (20 + 4 * (top + 1))
              (((counts.take octree_depth).sum) % 2 ^ 32) fuel
              (Octree.new root_mask) 1 0
        else Except.error LoadError.panic) = .ok t := h2
      by_cases hdep : octree_depth ≤ top + 1
      · rw [if_pos hdep] at h3
        cases hroot : data[20 + 4 * (top + 1)]? with
        | none =>
          rw [hroot] at h3
          exact absurd h3 (by simp)
        | some root_mask =>
          rw [hroot] at h3
          exact load_loop_reachable cap data (20 + 4 * (top + 1)) _ fuel
            (Octree.new root_mask) 1 0 t h3 (Reachable.new root_mask) hcap
      · rw [if_neg hdep] at h3
        exact absurd h3 (by simp)

lemma load_vox_build_length_mono (depth size : Nat) :
    ∀ (voxels : List (Nat × Nat × Nat)) (fuel : Nat) (o t : Octree),
      load_vox_build depth size voxels fuel o = .ok t →
      o.nodes.length ≤ t.nodes.length := by
  intro voxels
  induction voxels with
  | nil =>
    intro fuel o t h
    rw [load_vox_build_nil] at h
    cases h
    exact le_rfl
  | cons v rest ih =>
    intro fuel o t h
    cases hp : put_in_voxel o (vox_transform depth size v) 1 depth fuel with
    | none =>
      rw [load_vox_build_cons_none depth size fuel o v rest hp] at h
      cases h
    | some o2 =>
      rw [load_vox_build_cons_some depth size fuel o o2 v rest hp] at h
      have h1 := put_in_voxel_length_mono (vox_transform depth size v) 1 depth fuel o o2 hp
      have h2 := ih fuel o2 t h
      omega

lemma load_vox_build_reachable (cap depth size : Nat) :
    ∀ (voxels : List (Nat × Nat × Nat)) (fuel : Nat) (o t : Octree),
      load_vox_build depth size voxels fuel o = .ok t →
      Reachable cap o → t.nodes.length ≤ cap → Reachable cap t := by
  intro voxels
  induction voxels with
  | nil =>
    intro fuel o t h hr hcap
    rw [load_vox_build_nil] at h
    cases h
    exact hr
  | cons v rest ih =>
    intro fuel o t h hr hcap
    cases hp : put_in_voxel o (vox_transform depth size v) 1 depth fuel with
    | none =>
      rw [load_vox_build_cons_none depth size fuel o v rest hp] at h
      cases h
    | some o2 =>
      rw [load_vox_build_cons_some depth size fuel o o2 v rest hp] at h
      have hmono := load_vox_build_length_mono depth size rest fuel o2 t h
      have hr2 : Reachable cap o2 :=
        put_in_voxel_reachable cap (vox_transform depth size v) 1 depth fuel o o2 hp hr
          (by omega)
      exact ih fuel o2 t h hr2 hcap

lemma load_vox_reachable (cap : Nat) (sx sy sz : Nat) (voxels : List (Nat × Nat × Nat))
    (fuel : Nat) (t : Octree) (h : load_vox sx sy sz voxels fuel = .ok t)
    (hcap : t.nodes.length ≤ cap) : Reachable cap t := by
  rw [load_vox_unfold] at h
  cases hc : load_vox_checks sx sy sz with
  | error e =>
    rw [hc] at h
    exact absurd h (by simp)
  | ok depth =>
    rw [hc] at h
    exact load_vox_build_reachable cap depth sx voxels fuel (Octree.new 0) t h
      (Reachable.new 0) hcap
